import Mathlib

/-! ## ofxPCL: registration loop, reconstruction skeleton and field helpers

A shallow embedding of three files of the PCL headers shipped with ofxPCL:
`pcl::IterativeClosestPoint::computeTransformation`
(`libs/include/pcl/registration/impl/icp.hpp`),
`pcl::SurfaceReconstruction::reconstruct` (`libs/include/pcl/surface/impl/reconstruction.hpp`)
and the field helpers of `libs/include/pcl/io/io.h`.

* `Eigen::Matrix4f` is a 4x4 matrix over `ℚ` (exact arithmetic).
* The member variables the function reads and writes are the fields of
  `ICP`; the working cloud `output` (passed by reference) is a field too.
* The collaborators that the function calls but that are not defined in this
  file of the repository (`searchForNeighbors`, the sample-consensus model,
  `rigid_transformation_estimation_`, `transformPointCloud`) are the fields of
  `Collaborators`, functions of the arguments the code hands them.
* Every call of a collaborator and the assignment `converged_ = true` is
  recorded as an `Event`, so that "is (not) invoked" can be stated.
-/

namespace pcl

/-- The type `Eigen::Matrix4f`, over exact arithmetic. -/
abbrev Matrix4f := Matrix (Fin 4) (Fin 4) ℚ

/-- The coefficient sum `m.sum ()` of Eigen: the sum of the 16 entries. -/
def Matrix4f.sum (m : Matrix4f) : ℚ :=
  ∑ i : Fin 4, ∑ j : Fin 4, m i j

/-- The sum over the 16 entries of the absolute values (not computed anywhere in
`icp.hpp`; the convergence criterion as the specification words it). -/
def Matrix4f.absSum (m : Matrix4f) : ℚ :=
  ∑ i : Fin 4, ∑ j : Fin 4, |m i j|

/-- What the loop does that is visible from outside: collaborator calls and the
assignment `converged_ = true`. -/
inductive Event (Cloud : Type) where
  /-- A call `searchForNeighbors (output, idx, nn_indices, nn_dists)` and whether it succeeded. -/
  | search (cloud : Cloud) (idx : Nat) (found : Bool)
  /-- A call `sac.computeModel ()` on the model built from the two index lists. -/
  | reject (cloud : Cloud) (source_indices target_indices : List Int)
  /-- A call of `rigid_transformation_estimation_` on the two index lists, with its result. -/
  | estimate (cloud : Cloud) (source_indices_good target_indices_good : List Int)
      (result : Matrix4f)
  /-- A call `transformPointCloud (output, output, m)`. -/
  | transform (cloud : Cloud) (m : Matrix4f)
  /-- The assignment `converged_ = true` of line 163. -/
  | converge

/-- An event is a neighbour search. -/
def Event.isSearch {Cloud : Type} : Event Cloud → Bool
  | .search _ _ _ => true
  | _ => false

/-- An event is a call of the robust outlier-rejection model. -/
def Event.isReject {Cloud : Type} : Event Cloud → Bool
  | .reject _ _ _ => true
  | _ => false

/-- An event is a call of the transformation estimator. -/
def Event.isEstimate {Cloud : Type} : Event Cloud → Bool
  | .estimate _ _ _ _ => true
  | _ => false

/-- An event is a call of `transformPointCloud`. -/
def Event.isTransform {Cloud : Type} : Event Cloud → Bool
  | .transform _ _ => true
  | _ => false

/-- The increments returned by the estimator, in the order of the calls. -/
def increments {Cloud : Type} : List (Event Cloud) → List Matrix4f
  | [] => []
  | .estimate _ _ _ T :: es => T :: increments es
  | _ :: es => increments es

/-- The functions `computeTransformation` calls and that `icp.hpp` does not define. -/
structure Collaborators (Cloud : Type) where
  /-- The call `searchForNeighbors (cloud, idx, nn_indices, nn_dists)`: `none` when it returns
  false, else `(nn_indices[0], nn_dists[0])`. -/
  searchForNeighbors : Cloud → Nat → Option (Int × ℚ)
  /-- The model of lines 104-114 (`RandomSampleConsensus` over the registration model of the
  working cloud, `source_indices`, `target_` and `target_indices`): `none` when
  `sac.computeModel ()` returns false, else the list given by `sac.getInliers`. -/
  computeModel : Cloud → List Int → List Int → Option (List Int)
  /-- The call `rigid_transformation_estimation_ (output, source_indices_good, *target_,
  target_indices_good, transformation_)`; the last argument is passed by reference and holds the
  value of `transformation_` at the call, the result is its value after the call. -/
  rigid_transformation_estimation_ : Cloud → List Int → List Int → Matrix4f → Matrix4f
  /-- The call `transformPointCloud (cloud_in, cloud_out, transform)`, giving `cloud_out`. -/
  transformPointCloud : Cloud → Matrix4f → Cloud

/-- The members of `IterativeClosestPoint` that `computeTransformation` reads or writes, and the
working cloud `output`. -/
structure ICP (Cloud : Type) where
  /-- The value `indices_->size ()`. -/
  indices_size : Nat
  max_iterations_ : Int
  min_number_correspondences_ : Int
  corr_dist_threshold_ : ℚ
  transformation_epsilon_ : ℚ
  nr_iterations_ : Int
  converged_ : Bool
  transformation_ : Matrix4f
  previous_transformation_ : Matrix4f
  final_transformation_ : Matrix4f
  /-- The parameter `PointCloudSource &output`. -/
  output : Cloud

/-- The method `std::vector<int>::resize (n)`: truncate, or pad with zeros. -/
def resize (v : List Int) (n : Nat) : List Int :=
  v.take n ++ List.replicate (n - v.length) 0

/-- The locals `cnt`, `source_indices`, `target_indices` of the loop body. -/
structure Corr where
  cnt : Nat
  source_indices : List Int
  target_indices : List Int

/-- The `for` loop of lines 80-95, with `remaining` iterations left to do from position `idx`.
The result is `none` when the loop left the function through the `return` of line 85. -/
def searchLoop {Cloud : Type} (C : Collaborators Cloud) (output : Cloud) (dist_threshold : ℚ) :
    (remaining : Nat) → (idx : Nat) → Corr → List (Event Cloud) × Option Corr
  | 0, _, c => ([], some c)
  | remaining + 1, idx, c =>
    match C.searchForNeighbors output idx with
    | none => ([Event.search output idx false], none)
    | some (nn_index, nn_dist) =>
      let c1 : Corr :=
        if nn_dist < dist_threshold then
          { cnt := c.cnt + 1
            source_indices := c.source_indices.set c.cnt (idx : Int)
            target_indices := c.target_indices.set c.cnt nn_index }
        else c
      let r := searchLoop C output dist_threshold remaining (idx + 1) c1
      (Event.search output idx true :: r.1, r.2)

/-- Lines 75-97: the correspondence search over the whole index vector, then the two `resize`
calls. The lists are `source_indices` and `target_indices` as handed to the rejection model. -/
def findCorrespondences {Cloud : Type} (C : Collaborators Cloud) (s : ICP Cloud) :
    List (Event Cloud) × Option (List Int × List Int) :=
  let dist_threshold := s.corr_dist_threshold_ * s.corr_dist_threshold_
  let r := searchLoop C s.output dist_threshold s.indices_size 0
    { cnt := 0
      source_indices := List.replicate s.indices_size 0
      target_indices := List.replicate s.indices_size 0 }
  match r.2 with
  | none => (r.1, none)
  | some c => (r.1, some (resize c.source_indices c.cnt, resize c.target_indices c.cnt))

/-- Lines 127-129: the map `source_to_target` after the insertions
`source_to_target[source_indices[i]] = target_indices[i]`; a key never inserted reads as `0`,
as `operator[]` of `boost::unordered_map<int, int>` gives. -/
def source_to_target (source_indices target_indices : List Int) : Int → Int :=
  (List.zip source_indices target_indices).foldl
    (fun m p => Function.update m p.1 p.2) (fun _ => 0)

/-- Lines 99-136: the lists `(source_indices_good, target_indices_good)`. -/
def rejectOutliers {Cloud : Type} (C : Collaborators Cloud) (output : Cloud)
    (source_indices target_indices : List Int) : List Int × List Int :=
  match C.computeModel output source_indices target_indices with
  | none => (source_indices, target_indices)
  | some inliers => (inliers, inliers.map (source_to_target source_indices target_indices))

/-- The test of lines 160-161. -/
def convergenceCheck (nr_iterations_ max_iterations_ : Int)
    (transformation_ previous_transformation_ : Matrix4f) (transformation_epsilon_ : ℚ) : Bool :=
  decide (nr_iterations_ ≥ max_iterations_) ||
    decide (|Matrix4f.sum (transformation_ - previous_transformation_)| < transformation_epsilon_)

/-- One pass through the body of the `while` loop. -/
structure Step (Cloud : Type) where
  /-- The members after the pass. -/
  state : ICP Cloud
  /-- A `return` statement (line 85 or line 144) was executed. -/
  returned : Bool
  /-- What the pass did, in order. -/
  events : List (Event Cloud)

/-- Lines 72-166: the body of the `while` loop. The cast `(int) source_indices_good.size ()` of
line 139 is the identity, the lists being shorter than `2^31`. -/
def iteration {Cloud : Type} (C : Collaborators Cloud) (s : ICP Cloud) : Step Cloud :=
  let s1 : ICP Cloud := { s with previous_transformation_ := s.transformation_ }
  match findCorrespondences C s1 with
  | (ev, none) => { state := s1, returned := true, events := ev }
  | (ev, some (source_indices, target_indices)) =>
    let good := rejectOutliers C s1.output source_indices target_indices
    let ev1 := ev ++ [Event.reject s1.output source_indices target_indices]
    let cnt : Int := (good.1.length : Int)
    if cnt < s1.min_number_correspondences_ then
      { state := { s1 with converged_ := false }, returned := true, events := ev1 }
    else
      let T := C.rigid_transformation_estimation_ s1.output good.1 good.2 s1.transformation_
      let output := C.transformPointCloud s1.output T
      let nr := s1.nr_iterations_ + 1
      let conv := convergenceCheck nr s1.max_iterations_ T s1.previous_transformation_
        s1.transformation_epsilon_
      { state :=
          { s1 with
            transformation_ := T
            output := output
            final_transformation_ := T * s1.final_transformation_
            nr_iterations_ := nr
            converged_ := if conv then true else s1.converged_ }
        returned := false
        events := ev1 ++ [Event.estimate s1.output good.1 good.2 T, Event.transform s1.output T]
          ++ (if conv then [Event.converge] else []) }

/-- Lines 70-167: the `while (!converged_)` loop, run for at most `fuel` passes; `none` when the
fuel is used up before the loop ends. The second component is the trace of the events so far. -/
def whileLoop {Cloud : Type} (C : Collaborators Cloud) :
    (fuel : Nat) → ICP Cloud → List (Event Cloud) → Option (ICP Cloud × List (Event Cloud))
  | fuel, s, tr =>
    if s.converged_ then some (s, tr)
    else
      match fuel with
      | 0 => none
      | fuel + 1 =>
        let r := iteration C s
        if r.returned then some (r.state, tr ++ r.events)
        else whileLoop C fuel r.state (tr ++ r.events)

/-- Lines 57-68: the reset of the counters and the initial-guess step. -/
def initialGuess {Cloud : Type} (C : Collaborators Cloud) (s : ICP Cloud) (guess : Matrix4f) :
    ICP Cloud × List (Event Cloud) :=
  let s0 : ICP Cloud := { s with nr_iterations_ := 0, converged_ := false }
  if guess ≠ 1 then
    ({ s0 with final_transformation_ := guess, output := C.transformPointCloud s0.output guess },
      [Event.transform s0.output guess])
  else (s0, [])

/-- The method `computeTransformation (output, guess)` of lines 46-168. The loop is given
`max_iterations_ + 1` passes, which is more than it can use. -/
def computeTransformation {Cloud : Type} (C : Collaborators Cloud) (s : ICP Cloud)
    (guess : Matrix4f) : Option (ICP Cloud × List (Event Cloud)) :=
  let i := initialGuess C s guess
  whileLoop C (s.max_iterations_.toNat + 1) i.1 i.2

/-- The method `computeTransformation (output)` of lines 40-44. -/
def computeTransformation₁ {Cloud : Type} (C : Collaborators Cloud) (s : ICP Cloud) :
    Option (ICP Cloud × List (Event Cloud)) :=
  computeTransformation C s 1

/-- The correspondence the distance test of line 89 keeps at position `i`, if any: the pair
`(i, nn_indices[0])` when the search succeeds with `nn_dists[0] < dist_threshold`. -/
def keptAt {Cloud : Type} (C : Collaborators Cloud) (output : Cloud) (dist_threshold : ℚ)
    (i : Nat) : Option (Int × Int) :=
  match C.searchForNeighbors output i with
  | some (nn_index, nn_dist) => if nn_dist < dist_threshold then some ((i : Int), nn_index) else none
  | none => none

/-- The correspondences kept among the positions `idx, ..., idx + remaining - 1`, in ascending
order of position. -/
def kept {Cloud : Type} (C : Collaborators Cloud) (output : Cloud) (dist_threshold : ℚ)
    (idx remaining : Nat) : List (Int × Int) :=
  (List.range' idx remaining).filterMap (keptAt C output dist_threshold)

/-- The state a pass leaves when it returns at line 85. -/
def afterSearchFailure {Cloud : Type} (s : ICP Cloud) : ICP Cloud :=
  { s with previous_transformation_ := s.transformation_ }

/-- The state a pass leaves when it returns at line 144. -/
def afterTooFew {Cloud : Type} (s : ICP Cloud) : ICP Cloud :=
  { s with previous_transformation_ := s.transformation_, converged_ := false }

/-- The state a pass leaves when it reaches the end of the body with the increment `T`. -/
def afterEstimate {Cloud : Type} (C : Collaborators Cloud) (s : ICP Cloud) (T : Matrix4f) :
    ICP Cloud :=
  { s with
    previous_transformation_ := s.transformation_
    transformation_ := T
    output := C.transformPointCloud s.output T
    final_transformation_ := T * s.final_transformation_
    nr_iterations_ := s.nr_iterations_ + 1
    converged_ :=
      if convergenceCheck (s.nr_iterations_ + 1) s.max_iterations_ T s.transformation_
        s.transformation_epsilon_ then true else s.converged_ }

/-! ## Concrete inputs -/

/-- The identity plus a small antisymmetric part, as a first-order rotation about the z axis:
it differs from the identity by `+1` at entry `(0, 1)` and `-1` at entry `(1, 0)`. -/
def smallRotation : Matrix4f :=
  fun i j => if i = 0 ∧ j = 1 then 1 else if i = 1 ∧ j = 0 then -1 else if i = j then 1 else 0

/-- Collaborators over a cloud that only counts the transformations applied to it: every search
finds neighbour `7` at squared distance `0`, the robust model never fits, the estimator
always returns `smallRotation`. -/
def rotatingCollaborators : Collaborators Nat where
  searchForNeighbors := fun _ _ => some (7, 0)
  computeModel := fun _ _ _ => none
  rigid_transformation_estimation_ := fun _ _ _ _ => smallRotation
  transformPointCloud := fun c _ => c + 1

/-- One active point, at most ten passes, all three transformations the identity at entry. -/
def onePointICP : ICP Nat where
  indices_size := 1
  max_iterations_ := 10
  min_number_correspondences_ := 1
  corr_dist_threshold_ := 1
  transformation_epsilon_ := 1
  nr_iterations_ := 0
  converged_ := false
  transformation_ := 1
  previous_transformation_ := 1
  final_transformation_ := 1
  output := 0

/-- The translation by `(1, 0, 0)`. -/
def translationX : Matrix4f :=
  fun i j => if i = j then 1 else if i = 0 ∧ j = 3 then 1 else 0

/-- The rotation by a quarter turn about the z axis. -/
def quarterTurnZ : Matrix4f :=
  fun i j =>
    if i = 0 ∧ j = 1 then -1 else if i = 1 ∧ j = 0 then 1
    else if (i = 2 ∧ j = 2) ∨ (i = 3 ∧ j = 3) then 1 else 0

/-- Collaborators over a cloud that only counts the transformations applied to it: the estimator
returns `translationX` on the untouched cloud and `quarterTurnZ` afterwards. -/
def twoStepCollaborators : Collaborators Nat where
  searchForNeighbors := fun _ _ => some (7, 0)
  computeModel := fun _ _ _ => none
  rigid_transformation_estimation_ := fun c _ _ _ => if c = 0 then translationX else quarterTurnZ
  transformPointCloud := fun c _ => c + 1

/-- One active point, two passes allowed, no numerical convergence (`transformation_epsilon_`
is `0`), all three transformations the identity at entry. -/
def twoStepICP : ICP Nat where
  indices_size := 1
  max_iterations_ := 2
  min_number_correspondences_ := 1
  corr_dist_threshold_ := 1
  transformation_epsilon_ := 0
  nr_iterations_ := 0
  converged_ := false
  transformation_ := 1
  previous_transformation_ := 1
  final_transformation_ := 1
  output := 0

/-- The input `onePointICP` asking for two correspondences. -/
def onePointStrictICP : ICP Nat :=
  { onePointICP with min_number_correspondences_ := 2 }

/-- Collaborators whose search fails at position `1` and nowhere else. -/
def failingCollaborators : Collaborators Nat where
  searchForNeighbors := fun _ idx => if idx = 1 then none else some (7, 0)
  computeModel := fun _ _ _ => none
  rigid_transformation_estimation_ := fun _ _ _ _ => smallRotation
  transformPointCloud := fun c _ => c + 1

/-- Three active points, otherwise as `onePointICP`. -/
def threePointICP : ICP Nat :=
  { onePointICP with indices_size := 3 }

/-- Collaborators whose robust model fits and reports the inlier `1` only; every search finds
as neighbour ten plus the position, at squared distance `0`. -/
def inlierCollaborators : Collaborators Nat where
  searchForNeighbors := fun _ idx => some ((idx : Int) + 10, 0)
  computeModel := fun _ _ _ => some [1]
  rigid_transformation_estimation_ := fun _ _ _ _ => smallRotation
  transformPointCloud := fun c _ => c + 1

/-- The correspondence at position `i` when a correspondence is dropped exactly if its squared
distance exceeds the squared threshold (the wording of the specification; the code tests
`nn_dists[0] < dist_threshold`, see `keptAt`). -/
def notExceedingAt {Cloud : Type} (C : Collaborators Cloud) (output : Cloud) (dist_threshold : ℚ)
    (i : Nat) : Option (Int × Int) :=
  match C.searchForNeighbors output i with
  | some (nn_index, nn_dist) => if nn_dist > dist_threshold then none else some ((i : Int), nn_index)
  | none => none

/-- Collaborators whose every search finds neighbour `7` at squared distance exactly `1`. -/
def boundaryCollaborators : Collaborators Nat where
  searchForNeighbors := fun _ _ => some (7, 1)
  computeModel := fun _ _ _ => none
  rigid_transformation_estimation_ := fun _ _ _ _ => smallRotation
  transformPointCloud := fun c _ => c + 1

/-- The members after `k` passes through the loop body, started in `s`. -/
def passes {Cloud : Type} (C : Collaborators Cloud) : Nat → ICP Cloud → ICP Cloud
  | 0, s => s
  | k + 1, s => (iteration C (passes C k s)).state

/-- Collaborators whose every search fails. -/
def noNeighbourCollaborators : Collaborators Nat where
  searchForNeighbors := fun _ _ => none
  computeModel := fun _ _ _ => none
  rigid_transformation_estimation_ := fun _ _ _ _ => smallRotation
  transformPointCloud := fun c _ => c + 1

/-- The input `onePointICP`, with `final_transformation_` holding a translation at entry (as a
previous call leaves it). -/
def shiftedICP : ICP Nat :=
  { onePointICP with final_transformation_ := translationX }

/-- Collaborators over a cloud that counts the transformations applied to it: the search
succeeds on the untouched cloud and fails once the cloud has been transformed; the estimator
returns `translationX`. -/
def secondPassFailingCollaborators : Collaborators Nat where
  searchForNeighbors := fun c _ => if c = 0 then some (7, 0) else none
  computeModel := fun _ _ _ => none
  rigid_transformation_estimation_ := fun _ _ _ _ => translationX
  transformPointCloud := fun c _ => c + 1

/-- An event is the assignment `converged_ = true`. -/
def Event.isConverge {Cloud : Type} : Event Cloud → Bool
  | .converge => true
  | _ => false

/-- The events of `m` successive passes through the loop body, started in `s`. -/
def traceOfPasses {Cloud : Type} (C : Collaborators Cloud) : Nat → ICP Cloud → List (Event Cloud)
  | 0, _ => []
  | m + 1, s => (iteration C s).events ++ traceOfPasses C m (iteration C s).state

/-- Collaborators for a cloud registered against a copy of itself: every search finds the
point itself at squared distance `0`, the robust model never fits, the estimator returns the
identity. -/
def identicalCollaborators : Collaborators Nat where
  searchForNeighbors := fun _ idx => some ((idx : Int), 0)
  computeModel := fun _ _ _ => none
  rigid_transformation_estimation_ := fun _ _ _ _ => 1
  transformPointCloud := fun c _ => c + 1

/-- The input `threePointICP` with no iteration allowed. -/
def zeroIterationICP : ICP Nat :=
  { threePointICP with max_iterations_ := 0 }

/-! ## The surface reconstruction skeleton (`surface/impl/reconstruction.hpp`) -/

/-- The members of `sensor_msgs::PointCloud2` that `reconstruct` assigns, and the others. -/
structure PointCloud2 (Rest : Type) where
  width : Nat
  height : Nat
  data : List Nat
  rest : Rest

/-- The type `pcl::PolygonMesh`. -/
structure PolygonMesh (Header Rest Polygon : Type) where
  header : Header
  cloud : PointCloud2 Rest
  polygons : List Polygon

/-- The calls `reconstruct` makes, in order. -/
inductive ReconstructEvent (Mesh : Type) where
  /-- A call `initCompute ()` and its result. -/
  | initCompute (result : Bool)
  /-- A call `tree_->setInputCloud (input_, indices_)`. -/
  | setInputCloud
  /-- A call `pcl::toROSMsg (*input_, output.cloud)`. -/
  | toROSMsg
  /-- A call `performReconstruction (output)`, with the mesh it is handed. -/
  | performReconstruction (output : Mesh)
  /-- A call `deinitCompute ()`. -/
  | deinitCompute

/-- An event is a call of `performReconstruction`. -/
def ReconstructEvent.isPerformReconstruction {Mesh : Type} : ReconstructEvent Mesh → Bool
  | .performReconstruction _ => true
  | _ => false

/-- An event is a call of `deinitCompute`. -/
def ReconstructEvent.isDeinitCompute {Mesh : Type} : ReconstructEvent Mesh → Bool
  | .deinitCompute => true
  | _ => false

/-- What `reconstruct` reads of a `SurfaceReconstruction` object: the header of `*input_`
(line 46 dereferences `input_` first of all, so it is taken to be set), the result of
`initCompute ()`, the flag `check_tree_`, whether `tree_` is set, and the two functions
that fill the output, `pcl::toROSMsg (*input_, cloud)` and the virtual
`performReconstruction`. -/
structure SurfaceReconstruction (Header Rest Polygon : Type) where
  input_header : Header
  initCompute : Bool
  check_tree_ : Bool
  tree_ : Bool
  toROSMsg : PointCloud2 Rest → PointCloud2 Rest
  performReconstruction : PolygonMesh Header Rest Polygon → PolygonMesh Header Rest Polygon

/-- Lines 50-52 and 62-64: the output emptied. -/
def emptied {Header Rest Polygon : Type} (output : PolygonMesh Header Rest Polygon) :
    PolygonMesh Header Rest Polygon :=
  { output with cloud := { output.cloud with width := 0, height := 0, data := [] }, polygons := [] }

/-- The method `SurfaceReconstruction::reconstruct (output)` of lines 42-80: the mesh on return
and the calls made. -/
def reconstruct {Header Rest Polygon : Type} (R : SurfaceReconstruction Header Rest Polygon)
    (output : PolygonMesh Header Rest Polygon) :
    PolygonMesh Header Rest Polygon × List (ReconstructEvent (PolygonMesh Header Rest Polygon)) :=
  let output := { output with header := R.input_header }
  if !R.initCompute then
    (emptied output, [ReconstructEvent.initCompute false])
  else if R.check_tree_ && !R.tree_ then
    (emptied output, [ReconstructEvent.initCompute true])
  else
    let tree : List (ReconstructEvent (PolygonMesh Header Rest Polygon)) :=
      if R.check_tree_ then [ReconstructEvent.setInputCloud] else []
    let output := { output with cloud := R.toROSMsg output.cloud }
    let output := { output with polygons := [] }
    (R.performReconstruction output,
      [ReconstructEvent.initCompute true] ++ tree ++
        [ReconstructEvent.toROSMsg, ReconstructEvent.performReconstruction output,
          ReconstructEvent.deinitCompute])

/-- A reconstruction that adds `polygon` to the mesh it is handed. -/
def addingReconstruction (initCompute check_tree_ tree_ : Bool) :
    SurfaceReconstruction Nat Unit Nat where
  input_header := 42
  initCompute := initCompute
  check_tree_ := check_tree_
  tree_ := tree_
  toROSMsg := fun c => { c with width := 3, height := 1, data := [1, 2, 3] }
  performReconstruction := fun m => { m with polygons := 7 :: m.polygons }

/-- A mesh left over from an earlier reconstruction. -/
def usedMesh : PolygonMesh Nat Unit Nat where
  header := 0
  cloud := { width := 5, height := 1, data := [9, 9, 9, 9, 9], rest := () }
  polygons := [1, 2]

/-! ## The field helpers (`io/io.h`) -/

/-- The eight constants of `sensor_msgs::PointField` that `io.h` uses and does not define. They
label the cases of one `switch`, so they are pairwise distinct. -/
structure PointField where
  INT8 : Int
  UINT8 : Int
  INT16 : Int
  UINT16 : Int
  INT32 : Int
  UINT32 : Int
  FLOAT32 : Int
  FLOAT64 : Int
  distinct : [INT8, UINT8, INT16, UINT16, INT32, UINT32, FLOAT32, FLOAT64].Nodup

/-- The function `getFieldSize (int datatype)` of lines 108-132. -/
def getFieldSize (pf : PointField) (datatype : Int) : Int :=
  if datatype = pf.INT8 ∨ datatype = pf.UINT8 then 1
  else if datatype = pf.INT16 ∨ datatype = pf.UINT16 then 2
  else if datatype = pf.INT32 ∨ datatype = pf.UINT32 ∨ datatype = pf.FLOAT32 then 4
  else if datatype = pf.FLOAT64 then 8
  else 0

/-- The statements under `case 8:` of lines 165-166. -/
def getFieldType.case8 (pf : PointField) : Int :=
  pf.FLOAT64

/-- The statements from `case 4:` on (lines 157-166): no `break` ends the case, so a type that
is none of `I`, `U`, `F` runs on into `case 8:`. -/
def getFieldType.case4 (pf : PointField) (type : Char) : Int :=
  if type = 'I' then pf.INT32
  else if type = 'U' then pf.UINT32
  else if type = 'F' then pf.FLOAT32
  else getFieldType.case8 pf

/-- The statements from `case 2:` on (lines 151-166), running on into `case 4:`. -/
def getFieldType.case2 (pf : PointField) (type : Char) : Int :=
  if type = 'I' then pf.INT16
  else if type = 'U' then pf.UINT16
  else getFieldType.case4 pf type

/-- The statements from `case 1:` on (lines 145-166), running on into `case 2:`. -/
def getFieldType.case1 (pf : PointField) (type : Char) : Int :=
  if type = 'I' then pf.INT8
  else if type = 'U' then pf.UINT8
  else getFieldType.case2 pf type

/-- The function `getFieldType (int size, char type)` of lines 139-171; `std::toupper` in the
classic locale is `Char.toUpper`. -/
def getFieldType (pf : PointField) (size : Int) (type : Char) : Int :=
  let type := type.toUpper
  if size = 1 then getFieldType.case1 pf type
  else if size = 2 then getFieldType.case2 pf type
  else if size = 4 then getFieldType.case4 pf type
  else if size = 8 then getFieldType.case8 pf
  else -1

/-- The function `getFieldType (int type)` of lines 177-198. -/
def getFieldType₁ (pf : PointField) (type : Int) : Char :=
  if type = pf.INT8 ∨ type = pf.INT16 ∨ type = pf.INT32 then 'I'
  else if type = pf.UINT8 ∨ type = pf.UINT16 ∨ type = pf.UINT32 then 'U'
  else if type = pf.FLOAT32 ∨ type = pf.FLOAT64 then 'F'
  else '?'

/-- The values the constants have in `sensor_msgs/PointField.h`. -/
def rosPointField : PointField where
  INT8 := 1
  UINT8 := 2
  INT16 := 3
  UINT16 := 4
  INT32 := 5
  UINT32 := 6
  FLOAT32 := 7
  FLOAT64 := 8
  distinct := by decide

/-- The call `std::swap (bytes[i], bytes[j])` on a `char` array held as a list; `none` when a
position lies outside the array. -/
def io.swap {α : Type} (bytes : List α) (i j : Nat) : Option (List α) :=
  match bytes[i]?, bytes[j]? with
  | some a, some b => some ((bytes.set i b).set j a)
  | _, _ => none

/-- The template `pcl::io::swapByte<N> (char* bytes)` of lines 332-368, specialised for
`N = 1, 2, 4, 8` and left undefined for every other `N` (`none`). -/
def io.swapByte {α : Type} (N : Nat) (bytes : List α) : Option (List α) :=
  match N with
  | 1 => some bytes
  | 2 => io.swap bytes 0 1
  | 4 => (io.swap bytes 0 3).bind (fun b => io.swap b 1 2)
  | 8 =>
    (io.swap bytes 0 7).bind (fun b =>
      (io.swap b 1 6).bind (fun b => (io.swap b 2 5).bind (fun b => io.swap b 3 4)))
  | _ => none

/-- The loop of lines 98-99 with `remaining` iterations left to do from position `i`; `none`
when `cloud.fields[i]` lies outside the vector. -/
def getFieldsListLoop (fields : List String) : (remaining : Nat) → (i : Nat) → String →
    Option String
  | 0, _, result => some result
  | remaining + 1, i, result =>
    match fields[i]? with
    | none => none
    | some name => getFieldsListLoop fields remaining (i + 1) (result ++ (name ++ " "))

/-- The value of `n - 1` computed in `size_t`, taken to be 64 bits wide. -/
def sizeMinusOne (n : Nat) : Nat :=
  (n + 2 ^ 64 - 1) % 2 ^ 64

/-- Lines 97-101 with `last` the value of `cloud.fields.size () - 1`; `none` when an access to
`cloud.fields` lies outside the vector. -/
def getFieldsListUpTo (fields : List String) (last : Nat) : Option String :=
  match getFieldsListLoop fields last 0 "" with
  | none => none
  | some result =>
    match fields[last]? with
    | none => none
    | some name => some (result ++ name)

/-- The function `getFieldsList (const sensor_msgs::PointCloud2 &cloud)` of lines 94-102, on the
names of `cloud.fields`; `none` when an access to `cloud.fields` lies outside the vector. -/
def getFieldsList (fields : List String) : Option String :=
  getFieldsListUpTo fields (sizeMinusOne fields.length)

/-- The `for` loop of lines 80-95 with every write `source_indices[cnt]`,
`target_indices[cnt]` checked against the size of its vector: the outer `none` stands for a
write outside a vector, and otherwise the result is as in `searchLoop`. -/
def searchLoopChecked {Cloud : Type} (C : Collaborators Cloud) (output : Cloud)
    (dist_threshold : ℚ) :
    (remaining : Nat) → (idx : Nat) → Corr → Option (List (Event Cloud) × Option Corr)
  | 0, _, c => some ([], some c)
  | remaining + 1, idx, c =>
    match C.searchForNeighbors output idx with
    | none => some ([Event.search output idx false], none)
    | some (nn_index, nn_dist) =>
      if nn_dist < dist_threshold then
        if c.cnt < c.source_indices.length ∧ c.cnt < c.target_indices.length then
          match searchLoopChecked C output dist_threshold remaining (idx + 1)
              { cnt := c.cnt + 1
                source_indices := c.source_indices.set c.cnt (idx : Int)
                target_indices := c.target_indices.set c.cnt nn_index } with
          | none => none
          | some r => some (Event.search output idx true :: r.1, r.2)
        else none
      else
        match searchLoopChecked C output dist_threshold remaining (idx + 1) c with
        | none => none
        | some r => some (Event.search output idx true :: r.1, r.2)

/-- Collaborators over clouds held as the matrix that maps a reference cloud onto them, so
that transforming a cloud is multiplying on the left; the estimator returns `translationX`. -/
def matrixCollaborators : Collaborators Matrix4f where
  searchForNeighbors := fun _ _ => some (7, 0)
  computeModel := fun _ _ _ => none
  rigid_transformation_estimation_ := fun _ _ _ _ => translationX
  transformPointCloud := fun c m => m * c

/-- One active point, two passes allowed, the three transformations the identity at entry, the
working cloud a quarter turn away from the reference cloud. -/
def matrixICP : ICP Matrix4f where
  indices_size := 1
  max_iterations_ := 2
  min_number_correspondences_ := 1
  corr_dist_threshold_ := 1
  transformation_epsilon_ := 0
  nr_iterations_ := 0
  converged_ := false
  transformation_ := 1
  previous_transformation_ := 1
  final_transformation_ := 1
  output := quarterTurnZ

/-! ## The correspondence search -/

theorem set_append_replicate (A : List Int) (m : Nat) (x : Int) (hm : 0 < m) :
    (A ++ List.replicate m 0).set A.length x = (A ++ [x]) ++ List.replicate (m - 1) 0 := by
  obtain ⟨k, rfl⟩ : ∃ k, m = k + 1 := ⟨m - 1, by omega⟩
  induction A with
  | nil => simp [List.replicate_succ]
  | cons a A ih => simpa using ih

theorem kept_succ_of_some {Cloud : Type} (C : Collaborators Cloud) (output : Cloud) (thr : ℚ)
    (idx remaining : Nat) (nn : Int) (d : ℚ)
    (h : C.searchForNeighbors output idx = some (nn, d)) :
    kept C output thr idx (remaining + 1) =
      (if d < thr then [((idx : Int), nn)] else []) ++ kept C output thr (idx + 1) remaining := by
  unfold kept
  rw [List.range'_succ, List.filterMap_cons]
  by_cases hd : d < thr <;> simp [keptAt, h, hd]

theorem kept_length_le {Cloud : Type} (C : Collaborators Cloud) (output : Cloud) (thr : ℚ)
    (idx remaining : Nat) : (kept C output thr idx remaining).length ≤ remaining := by
  unfold kept
  exact (List.length_filterMap_le _ _).trans (by simp)

/-- When every search from `idx` on succeeds, the `for` loop ends normally, having written the
kept correspondences behind the `cnt` ones already there. -/
theorem searchLoop_some {Cloud : Type} (C : Collaborators Cloud) (output : Cloud) (thr : ℚ) :
    ∀ (remaining idx : Nat) (c : Corr) (A B : List Int) (m : Nat),
      (∀ i, idx ≤ i → i < idx + remaining → C.searchForNeighbors output i ≠ none) →
      c.cnt = A.length → B.length = A.length →
      c.source_indices = A ++ List.replicate m 0 →
      c.target_indices = B ++ List.replicate m 0 →
      remaining ≤ m →
      ∃ c', (searchLoop C output thr remaining idx c).2 = some c' ∧
        c'.cnt = A.length + (kept C output thr idx remaining).length ∧
        c'.source_indices = (A ++ (kept C output thr idx remaining).map Prod.fst) ++
          List.replicate (m - (kept C output thr idx remaining).length) 0 ∧
        c'.target_indices = (B ++ (kept C output thr idx remaining).map Prod.snd) ++
          List.replicate (m - (kept C output thr idx remaining).length) 0 := by
  intro remaining
  induction remaining with
  | zero =>
    intro idx c A B m _ hc _ hs ht _
    exact ⟨c, rfl, by simp [kept, hc], by simp [kept, hs], by simp [kept, ht]⟩
  | succ n ih =>
    intro idx c A B m hall hc hB hs ht hm
    have hsome := hall idx (le_refl _) (by omega)
    obtain ⟨⟨nn, d⟩, hq⟩ := Option.ne_none_iff_exists'.mp hsome
    have hrest : ∀ i, idx + 1 ≤ i → i < idx + 1 + n → C.searchForNeighbors output i ≠ none :=
      fun i h1 h2 => hall i (by omega) (by omega)
    have hlen := kept_length_le C output thr (idx + 1) n
    rw [kept_succ_of_some C output thr idx n nn d hq]
    by_cases hd : d < thr
    · obtain ⟨c', h1, h2, h3, h4⟩ := ih (idx + 1)
        { cnt := c.cnt + 1
          source_indices := c.source_indices.set c.cnt (idx : Int)
          target_indices := c.target_indices.set c.cnt nn }
        (A ++ [(idx : Int)]) (B ++ [nn]) (m - 1) hrest (by simp [hc]) (by simp [hB])
        (by simp only [hs, hc]; exact set_append_replicate A m _ (by omega))
        (by simp only [ht, hc, ← hB]; exact set_append_replicate B m _ (by omega))
        (by omega)
      refine ⟨c', ?_, ?_, ?_, ?_⟩
      · simp only [searchLoop, hq, hd, if_true]; exact h1
      · simp only [hd, if_true, h2, List.length_append, List.length_singleton]; omega
      · have e : m - 1 - (kept C output thr (idx + 1) n).length =
            m - ((kept C output thr (idx + 1) n).length + 1) := by omega
        rw [h3, e]
        simp [hd, Nat.add_comm]
      · have e : m - 1 - (kept C output thr (idx + 1) n).length =
            m - ((kept C output thr (idx + 1) n).length + 1) := by omega
        rw [h4, e]
        simp [hd, Nat.add_comm]
    · obtain ⟨c', h1, h2, h3, h4⟩ := ih (idx + 1) c A B m hrest hc hB hs ht (by omega)
      refine ⟨c', ?_, ?_, ?_, ?_⟩
      · simp only [searchLoop, hq, hd, if_false]; exact h1
      · simpa [hd] using h2
      · simpa [hd] using h3
      · simpa [hd] using h4

theorem searchLoop_events_some {Cloud : Type} (C : Collaborators Cloud) (output : Cloud)
    (thr : ℚ) :
    ∀ (remaining idx : Nat) (c : Corr),
      (∀ i, idx ≤ i → i < idx + remaining → C.searchForNeighbors output i ≠ none) →
      (searchLoop C output thr remaining idx c).1 =
        (List.range' idx remaining).map (fun i => Event.search output i true) := by
  intro remaining
  induction remaining with
  | zero => intro idx c _; rfl
  | succ n ih =>
    intro idx c hall
    obtain ⟨⟨nn, d⟩, hq⟩ := Option.ne_none_iff_exists'.mp (hall idx (le_refl _) (by omega))
    simp only [searchLoop, hq, List.range'_succ, List.map_cons]
    rw [ih (idx + 1) _ (fun i h1 h2 => hall i (by omega) (by omega))]

/-- When the search fails first at position `idx + k`, the `for` loop queries the positions
`idx, ..., idx + k` and leaves through the `return` of line 85. -/
theorem searchLoop_none {Cloud : Type} (C : Collaborators Cloud) (output : Cloud) (thr : ℚ) :
    ∀ (k remaining idx : Nat) (c : Corr), k < remaining →
      (∀ i, idx ≤ i → i < idx + k → C.searchForNeighbors output i ≠ none) →
      C.searchForNeighbors output (idx + k) = none →
      searchLoop C output thr remaining idx c =
        ((List.range' idx k).map (fun i => Event.search output i true) ++
          [Event.search output (idx + k) false], none) := by
  intro k
  induction k with
  | zero =>
    intro remaining idx c hk _ hfail
    obtain ⟨n, rfl⟩ : ∃ n, remaining = n + 1 := ⟨remaining - 1, by omega⟩
    simp only [Nat.add_zero] at hfail
    simp [searchLoop, hfail]
  | succ k ih =>
    intro remaining idx c hk hall hfail
    obtain ⟨n, rfl⟩ : ∃ n, remaining = n + 1 := ⟨remaining - 1, by omega⟩
    obtain ⟨⟨nn, d⟩, hq⟩ := Option.ne_none_iff_exists'.mp (hall idx (le_refl _) (by omega))
    have hfail1 : C.searchForNeighbors output (idx + 1 + k) = none := by
      rw [← hfail]; congr 1; omega
    simp only [searchLoop, hq, List.range'_succ, List.map_cons, List.cons_append]
    rw [ih n (idx + 1) _ (by omega) (fun i h1 h2 => hall i (by omega) (by omega)) hfail1]
    have e : idx + 1 + k = idx + (k + 1) := by omega
    simp [e]

theorem resize_append_replicate (A : List Int) (r : Nat) :
    resize (A ++ List.replicate r 0) A.length = A := by
  simp [resize]

/-- When every search succeeds, lines 75-97 give the kept correspondences, in ascending order
of position, after one search per position. -/
theorem findCorrespondences_some {Cloud : Type} (C : Collaborators Cloud) (s : ICP Cloud)
    (hall : ∀ i, i < s.indices_size → C.searchForNeighbors s.output i ≠ none) :
    findCorrespondences C s =
      ((List.range s.indices_size).map (fun i => Event.search s.output i true),
        some ((kept C s.output (s.corr_dist_threshold_ * s.corr_dist_threshold_) 0
            s.indices_size).map Prod.fst,
          (kept C s.output (s.corr_dist_threshold_ * s.corr_dist_threshold_) 0
            s.indices_size).map Prod.snd)) := by
  have hall' : ∀ i, 0 ≤ i → i < 0 + s.indices_size → C.searchForNeighbors s.output i ≠ none :=
    fun i _ h => hall i (by omega)
  obtain ⟨c', h1, h2, h3, h4⟩ := searchLoop_some C s.output
    (s.corr_dist_threshold_ * s.corr_dist_threshold_) s.indices_size 0
    { cnt := 0
      source_indices := List.replicate s.indices_size 0
      target_indices := List.replicate s.indices_size 0 } [] [] s.indices_size hall'
    rfl rfl rfl rfl (le_refl _)
  have hev := searchLoop_events_some C s.output
    (s.corr_dist_threshold_ * s.corr_dist_threshold_) s.indices_size 0
    { cnt := 0
      source_indices := List.replicate s.indices_size 0
      target_indices := List.replicate s.indices_size 0 } hall'
  simp only [findCorrespondences, h1, hev, List.range_eq_range']
  simp only [List.nil_append, List.length_nil, Nat.zero_add] at h2 h3 h4
  have e1 : c'.cnt = ((kept C s.output (s.corr_dist_threshold_ * s.corr_dist_threshold_) 0
      s.indices_size).map Prod.fst).length := by simp [h2]
  have e2 : c'.cnt = ((kept C s.output (s.corr_dist_threshold_ * s.corr_dist_threshold_) 0
      s.indices_size).map Prod.snd).length := by simp [h2]
  have r1 : resize c'.source_indices c'.cnt = (kept C s.output
      (s.corr_dist_threshold_ * s.corr_dist_threshold_) 0 s.indices_size).map Prod.fst := by
    rw [h3, e1]; exact resize_append_replicate _ _
  have r2 : resize c'.target_indices c'.cnt = (kept C s.output
      (s.corr_dist_threshold_ * s.corr_dist_threshold_) 0 s.indices_size).map Prod.snd := by
    rw [h4, e2]; exact resize_append_replicate _ _
  rw [r1, r2]

/-- When the search fails first at position `k`, lines 75-97 query the positions `0, ..., k`
and leave the function. -/
theorem findCorrespondences_none {Cloud : Type} (C : Collaborators Cloud) (s : ICP Cloud)
    (k : Nat) (hk : k < s.indices_size)
    (hbefore : ∀ i, i < k → C.searchForNeighbors s.output i ≠ none)
    (hfail : C.searchForNeighbors s.output k = none) :
    findCorrespondences C s =
      ((List.range k).map (fun i => Event.search s.output i true) ++
        [Event.search s.output k false], none) := by
  have h := searchLoop_none C s.output (s.corr_dist_threshold_ * s.corr_dist_threshold_) k
    s.indices_size 0
    { cnt := 0
      source_indices := List.replicate s.indices_size 0
      target_indices := List.replicate s.indices_size 0 } hk
    (fun i _ h2 => hbefore i (by omega)) (by simpa using hfail)
  simp only [findCorrespondences, h, List.range_eq_range', Nat.zero_add]

/-- Lines 75-97 end normally exactly when every search succeeds. -/
theorem findCorrespondences_isSome_iff {Cloud : Type} (C : Collaborators Cloud) (s : ICP Cloud) :
    (findCorrespondences C s).2 ≠ none ↔
      ∀ i, i < s.indices_size → C.searchForNeighbors s.output i ≠ none := by
  constructor
  · intro h
    by_contra hne
    push_neg at hne
    have hex : ∃ k, k < s.indices_size ∧ C.searchForNeighbors s.output k = none := hne
    classical
    have hk := Nat.find_spec hex
    have hmin : ∀ i, i < Nat.find hex → C.searchForNeighbors s.output i ≠ none := by
      intro i hi hnone
      exact Nat.find_min hex hi ⟨by omega, hnone⟩
    rw [findCorrespondences_none C s (Nat.find hex) hk.1 hmin hk.2] at h
    exact h rfl
  · intro h
    rw [findCorrespondences_some C s h]
    simp

/-! ## One pass of the loop body -/

theorem iteration_of_search_none {Cloud : Type} (C : Collaborators Cloud) (s : ICP Cloud)
    (ev : List (Event Cloud)) (h : findCorrespondences C s = (ev, none)) :
    iteration C s = { state := afterSearchFailure s, returned := true, events := ev } := by
  have h' : findCorrespondences C { s with previous_transformation_ := s.transformation_ } =
      (ev, none) := h
  simp only [iteration, h', afterSearchFailure]

theorem iteration_of_too_few {Cloud : Type} (C : Collaborators Cloud) (s : ICP Cloud)
    (ev : List (Event Cloud)) (src tgt : List Int)
    (h : findCorrespondences C s = (ev, some (src, tgt)))
    (hlt : ((rejectOutliers C s.output src tgt).1.length : Int) < s.min_number_correspondences_) :
    iteration C s =
      { state := afterTooFew s, returned := true
        events := ev ++ [Event.reject s.output src tgt] } := by
  have h' : findCorrespondences C { s with previous_transformation_ := s.transformation_ } =
      (ev, some (src, tgt)) := h
  simp only [iteration, h', afterTooFew, hlt, if_true]

theorem iteration_of_enough {Cloud : Type} (C : Collaborators Cloud) (s : ICP Cloud)
    (ev : List (Event Cloud)) (src tgt : List Int)
    (h : findCorrespondences C s = (ev, some (src, tgt)))
    (hge : ¬ ((rejectOutliers C s.output src tgt).1.length : Int) <
      s.min_number_correspondences_) :
    iteration C s =
      { state := afterEstimate C s
          (C.rigid_transformation_estimation_ s.output (rejectOutliers C s.output src tgt).1
            (rejectOutliers C s.output src tgt).2 s.transformation_)
        returned := false
        events := ev ++ [Event.reject s.output src tgt] ++
          [Event.estimate s.output (rejectOutliers C s.output src tgt).1
              (rejectOutliers C s.output src tgt).2
              (C.rigid_transformation_estimation_ s.output (rejectOutliers C s.output src tgt).1
                (rejectOutliers C s.output src tgt).2 s.transformation_),
            Event.transform s.output
              (C.rigid_transformation_estimation_ s.output (rejectOutliers C s.output src tgt).1
                (rejectOutliers C s.output src tgt).2 s.transformation_)] ++
          (if convergenceCheck (s.nr_iterations_ + 1) s.max_iterations_
              (C.rigid_transformation_estimation_ s.output (rejectOutliers C s.output src tgt).1
                (rejectOutliers C s.output src tgt).2 s.transformation_)
              s.transformation_ s.transformation_epsilon_
            then [Event.converge] else []) } := by
  have h' : findCorrespondences C { s with previous_transformation_ := s.transformation_ } =
      (ev, some (src, tgt)) := h
  simp only [iteration, h', afterEstimate, hge, if_false]

/-- The three ways through the loop body. -/
theorem iteration_cases {Cloud : Type} (C : Collaborators Cloud) (s : ICP Cloud) :
    (∃ ev, findCorrespondences C s = (ev, none) ∧
      iteration C s = { state := afterSearchFailure s, returned := true, events := ev }) ∨
    (∃ ev src tgt, findCorrespondences C s = (ev, some (src, tgt)) ∧
      ((rejectOutliers C s.output src tgt).1.length : Int) < s.min_number_correspondences_ ∧
      iteration C s = { state := afterTooFew s, returned := true
                        events := ev ++ [Event.reject s.output src tgt] }) ∨
    (∃ ev src tgt T, findCorrespondences C s = (ev, some (src, tgt)) ∧
      ¬ ((rejectOutliers C s.output src tgt).1.length : Int) < s.min_number_correspondences_ ∧
      T = C.rigid_transformation_estimation_ s.output (rejectOutliers C s.output src tgt).1
        (rejectOutliers C s.output src tgt).2 s.transformation_ ∧
      iteration C s =
        { state := afterEstimate C s T
          returned := false
          events := ev ++ [Event.reject s.output src tgt] ++
            [Event.estimate s.output (rejectOutliers C s.output src tgt).1
                (rejectOutliers C s.output src tgt).2 T,
              Event.transform s.output T] ++
            (if convergenceCheck (s.nr_iterations_ + 1) s.max_iterations_ T
                s.transformation_ s.transformation_epsilon_
              then [Event.converge] else []) }) := by
  rcases hfc : findCorrespondences C s with ⟨ev, _ | ⟨src, tgt⟩⟩
  · exact Or.inl ⟨ev, rfl, iteration_of_search_none C s ev hfc⟩
  · by_cases hlt : ((rejectOutliers C s.output src tgt).1.length : Int) <
        s.min_number_correspondences_
    · exact Or.inr (Or.inl ⟨ev, src, tgt, rfl, hlt, iteration_of_too_few C s ev src tgt hfc hlt⟩)
    · exact Or.inr (Or.inr ⟨ev, src, tgt, _, rfl, hlt, rfl,
        iteration_of_enough C s ev src tgt hfc hlt⟩)

theorem searchLoop_events_search {Cloud : Type} (C : Collaborators Cloud) (output : Cloud)
    (thr : ℚ) :
    ∀ (remaining idx : Nat) (c : Corr) (e : Event Cloud),
      e ∈ (searchLoop C output thr remaining idx c).1 → ∃ i b, e = Event.search output i b := by
  intro remaining
  induction remaining with
  | zero => intro idx c e he; simp [searchLoop] at he
  | succ n ih =>
    intro idx c e he
    rcases hq : C.searchForNeighbors output idx with _ | ⟨nn, d⟩
    · simp only [searchLoop, hq, List.mem_singleton] at he
      exact ⟨idx, false, he⟩
    · simp only [searchLoop, hq, List.mem_cons] at he
      rcases he with he | he
      · exact ⟨idx, true, he⟩
      · exact ih _ _ e he

theorem findCorrespondences_events_search {Cloud : Type} (C : Collaborators Cloud)
    (s : ICP Cloud) (e : Event Cloud) (he : e ∈ (findCorrespondences C s).1) :
    ∃ i b, e = Event.search s.output i b := by
  have h1 : (findCorrespondences C s).1 =
      (searchLoop C s.output (s.corr_dist_threshold_ * s.corr_dist_threshold_) s.indices_size 0
        { cnt := 0
          source_indices := List.replicate s.indices_size 0
          target_indices := List.replicate s.indices_size 0 }).1 := by
    unfold findCorrespondences
    simp only
    split <;> rfl
  rw [h1] at he
  exact searchLoop_events_search C s.output _ s.indices_size 0 _ e he

theorem increments_append {Cloud : Type} (a b : List (Event Cloud)) :
    increments (a ++ b) = increments a ++ increments b := by
  induction a with
  | nil => rfl
  | cons e a ih => cases e <;> simp [increments, ih]

theorem increments_of_searches {Cloud : Type} (output : Cloud) (l : List (Event Cloud))
    (h : ∀ e ∈ l, ∃ i b, e = Event.search output i b) : increments l = [] := by
  induction l with
  | nil => rfl
  | cons e l ih =>
    obtain ⟨i, b, rfl⟩ := h e (List.mem_cons_self _ _)
    simpa [increments] using ih (fun e he => h e (List.mem_cons_of_mem _ he))

theorem countP_isEstimate_of_searches {Cloud : Type} (output : Cloud) (l : List (Event Cloud))
    (h : ∀ e ∈ l, ∃ i b, e = Event.search output i b) : l.countP Event.isEstimate = 0 := by
  rw [List.countP_eq_zero]
  intro e he
  obtain ⟨i, b, rfl⟩ := h e he
  simp [Event.isEstimate]

theorem countP_isReject_of_searches {Cloud : Type} (output : Cloud) (l : List (Event Cloud))
    (h : ∀ e ∈ l, ∃ i b, e = Event.search output i b) : l.countP Event.isReject = 0 := by
  rw [List.countP_eq_zero]
  intro e he
  obtain ⟨i, b, rfl⟩ := h e he
  simp [Event.isReject]

/-! ## The `while` loop -/

theorem whileLoop_converged {Cloud : Type} (C : Collaborators Cloud) (fuel : Nat)
    (s : ICP Cloud) (tr : List (Event Cloud)) (h : s.converged_ = true) :
    whileLoop C fuel s tr = some (s, tr) := by
  cases fuel <;> simp [whileLoop, h]

theorem whileLoop_zero {Cloud : Type} (C : Collaborators Cloud)
    (s : ICP Cloud) (tr : List (Event Cloud)) (h : s.converged_ = false) :
    whileLoop C 0 s tr = none := by
  simp [whileLoop, h]

theorem whileLoop_succ {Cloud : Type} (C : Collaborators Cloud) (fuel : Nat)
    (s : ICP Cloud) (tr : List (Event Cloud)) (h : s.converged_ = false) :
    whileLoop C (fuel + 1) s tr =
      if (iteration C s).returned then some ((iteration C s).state, tr ++ (iteration C s).events)
      else whileLoop C fuel (iteration C s).state (tr ++ (iteration C s).events) := by
  simp [whileLoop, h]

/-- What a pass that reaches the end of the body does to the counter and the flag. -/
theorem iteration_not_returned {Cloud : Type} (C : Collaborators Cloud) (s : ICP Cloud)
    (h : (iteration C s).returned = false) :
    (iteration C s).state.nr_iterations_ = s.nr_iterations_ + 1 ∧
    (iteration C s).state.max_iterations_ = s.max_iterations_ ∧
    ((iteration C s).state.converged_ = false →
      (iteration C s).state.nr_iterations_ < s.max_iterations_) := by
  rcases iteration_cases C s with ⟨ev, _, hi⟩ | ⟨ev, src, tgt, _, _, hi⟩ |
    ⟨ev, src, tgt, T, _, _, _, hi⟩
  · rw [hi] at h; cases h
  · rw [hi] at h; cases h
  · rw [hi]
    refine ⟨rfl, rfl, ?_⟩
    simp only [afterEstimate, convergenceCheck]
    intro hc
    by_contra hlt
    have : s.nr_iterations_ + 1 ≥ s.max_iterations_ := by omega
    simp [this] at hc

/-- The loop ends whenever it is given more passes than `max_iterations_ - nr_iterations_`. -/
theorem whileLoop_total {Cloud : Type} (C : Collaborators Cloud) :
    ∀ (fuel : Nat) (s : ICP Cloud) (tr : List (Event Cloud)),
      (s.converged_ = true ∨ (s.max_iterations_ - s.nr_iterations_ < (fuel : Int) ∧ 1 ≤ fuel)) →
      ∃ r, whileLoop C fuel s tr = some r := by
  intro fuel
  induction fuel with
  | zero =>
    intro s tr h
    rcases h with h | ⟨_, h⟩
    · exact ⟨_, whileLoop_converged C 0 s tr h⟩
    · omega
  | succ n ih =>
    intro s tr h
    by_cases hc : s.converged_ = true
    · exact ⟨_, whileLoop_converged C _ s tr hc⟩
    · have hc' : s.converged_ = false := by simpa using hc
      have hfuel : s.max_iterations_ - s.nr_iterations_ < ((n + 1 : Nat) : Int) := by
        rcases h with h | ⟨h, _⟩
        · exact absurd h hc
        · exact h
      rw [whileLoop_succ C n s tr hc']
      by_cases hr : (iteration C s).returned = true
      · simp only [hr, if_true]; exact ⟨_, rfl⟩
      · have hr' : (iteration C s).returned = false := by simpa using hr
        simp only [hr', Bool.false_eq_true, if_false]
        obtain ⟨h1, h2, h3⟩ := iteration_not_returned C s hr'
        apply ih
        by_cases hc2 : (iteration C s).state.converged_ = true
        · exact Or.inl hc2
        · have hc2' : (iteration C s).state.converged_ = false := by simpa using hc2
          have := h3 hc2'
          refine Or.inr ⟨?_, ?_⟩
          · rw [h2, h1]; push_cast at hfuel; omega
          · rw [h1] at this; push_cast at hfuel; omega

/-- The method `computeTransformation` always returns. -/
theorem computeTransformation_total {Cloud : Type} (C : Collaborators Cloud) (s : ICP Cloud)
    (guess : Matrix4f) : ∃ r, computeTransformation C s guess = some r := by
  unfold computeTransformation
  apply whileLoop_total
  right
  have hnr : (initialGuess C s guess).1.nr_iterations_ = 0 := by
    unfold initialGuess; split <;> rfl
  have hmax : (initialGuess C s guess).1.max_iterations_ = s.max_iterations_ := by
    unfold initialGuess; split <;> rfl
  rw [hnr, hmax]
  constructor
  · push_cast; have := Int.self_le_toNat s.max_iterations_; omega
  · omega

/-- A pass that returns (line 85 or line 144) calls no estimator and changes none of
`final_transformation_`, `transformation_`, `nr_iterations_` and the working cloud. -/
theorem iteration_returned {Cloud : Type} (C : Collaborators Cloud) (s : ICP Cloud)
    (h : (iteration C s).returned = true) :
    increments (iteration C s).events = [] ∧
    (iteration C s).state.final_transformation_ = s.final_transformation_ ∧
    (iteration C s).state.transformation_ = s.transformation_ ∧
    (iteration C s).state.nr_iterations_ = s.nr_iterations_ ∧
    (iteration C s).state.output = s.output ∧
    (s.converged_ = false → (iteration C s).state.converged_ = false) := by
  rcases iteration_cases C s with ⟨ev, hfc, hi⟩ | ⟨ev, src, tgt, hfc, _, hi⟩ |
    ⟨ev, src, tgt, T, _, _, _, hi⟩
  · rw [hi]
    have hev : ∀ e ∈ ev, ∃ i b, e = Event.search s.output i b := by
      intro e he
      exact findCorrespondences_events_search C s e (by rw [hfc]; exact he)
    exact ⟨increments_of_searches s.output ev hev, rfl, rfl, rfl, rfl, fun h => h⟩
  · rw [hi]
    have hev : ∀ e ∈ ev, ∃ i b, e = Event.search s.output i b := by
      intro e he
      exact findCorrespondences_events_search C s e (by rw [hfc]; exact he)
    refine ⟨?_, rfl, rfl, rfl, rfl, fun _ => rfl⟩
    rw [increments_append, increments_of_searches s.output ev hev]
    rfl
  · rw [hi] at h; cases h

/-- A pass that reaches the end of the body calls the estimator once and composes its result
on the left of `final_transformation_`. -/
theorem iteration_completed {Cloud : Type} (C : Collaborators Cloud) (s : ICP Cloud)
    (h : (iteration C s).returned = false) :
    increments (iteration C s).events = [(iteration C s).state.transformation_] ∧
    (iteration C s).state.final_transformation_ =
      (iteration C s).state.transformation_ * s.final_transformation_ ∧
    (iteration C s).state.previous_transformation_ = s.transformation_ ∧
    (iteration C s).state.output =
      C.transformPointCloud s.output (iteration C s).state.transformation_ := by
  rcases iteration_cases C s with ⟨ev, _, hi⟩ | ⟨ev, src, tgt, _, _, hi⟩ |
    ⟨ev, src, tgt, T, hfc, _, _, hi⟩
  · rw [hi] at h; cases h
  · rw [hi] at h; cases h
  · rw [hi]
    have hev : ∀ e ∈ ev, ∃ i b, e = Event.search s.output i b := by
      intro e he
      exact findCorrespondences_events_search C s e (by rw [hfc]; exact he)
    refine ⟨?_, rfl, rfl, rfl⟩
    simp only [increments_append, increments_of_searches s.output ev hev, afterEstimate]
    split <;> simp [increments]

/-- The trace only grows; the loop multiplies the increments of its passes, later ones on the
left, onto `final_transformation_`, and counts them in `nr_iterations_`. -/
theorem whileLoop_final {Cloud : Type} (C : Collaborators Cloud) :
    ∀ (fuel : Nat) (s : ICP Cloud) (tr : List (Event Cloud)) (r : ICP Cloud)
      (tr' : List (Event Cloud)), whileLoop C fuel s tr = some (r, tr') →
      ∃ ev, tr' = tr ++ ev ∧
        r.final_transformation_ = (increments ev).reverse.prod * s.final_transformation_ ∧
        r.nr_iterations_ = s.nr_iterations_ + ((increments ev).length : Int) := by
  intro fuel
  induction fuel with
  | zero =>
    intro s tr r tr' h
    by_cases hc : s.converged_ = true
    · rw [whileLoop_converged C 0 s tr hc] at h
      cases h
      exact ⟨[], by simp, by simp [increments], by simp [increments]⟩
    · rw [whileLoop_zero C s tr (by simpa using hc)] at h; cases h
  | succ n ih =>
    intro s tr r tr' h
    by_cases hc : s.converged_ = true
    · rw [whileLoop_converged C _ s tr hc] at h
      cases h
      exact ⟨[], by simp, by simp [increments], by simp [increments]⟩
    · rw [whileLoop_succ C n s tr (by simpa using hc)] at h
      by_cases hr : (iteration C s).returned = true
      · simp only [hr, if_true, Option.some.injEq, Prod.mk.injEq] at h
        obtain ⟨h1, h2, _, h4, _, _⟩ := iteration_returned C s hr
        refine ⟨(iteration C s).events, h.2.symm, ?_, ?_⟩
        · rw [h1, ← h.1, h2]; simp
        · rw [h1, ← h.1, h4]; simp
      · have hr' : (iteration C s).returned = false := by simpa using hr
        simp only [hr', Bool.false_eq_true, if_false] at h
        obtain ⟨ev, e1, e2, e3⟩ := ih _ _ _ _ h
        obtain ⟨h1, h2, _, _⟩ := iteration_completed C s hr'
        obtain ⟨h5, _, _⟩ := iteration_not_returned C s hr'
        refine ⟨(iteration C s).events ++ ev, by rw [e1, List.append_assoc], ?_, ?_⟩
        · rw [e2, h2, increments_append, h1]
          simp [Matrix.mul_assoc]
        · rw [e3, h5, increments_append, h1]
          simp only [List.length_append, List.length_singleton]
          push_cast; ring

/-! ## The convergence check (C1) -/

theorem converge_not_mem_searches {Cloud : Type} (output : Cloud) (l : List (Event Cloud))
    (h : ∀ e ∈ l, ∃ i b, e = Event.search output i b) : Event.converge ∉ l := by
  intro hmem
  obtain ⟨i, b, hb⟩ := h _ hmem
  cases hb

/-- In a pass that reaches line 160, `converged_ = true` is executed exactly when the test of
lines 160-161 holds, on the counter after its increment, the increment just estimated and
the transformation saved at line 73. -/
theorem iteration_converge_iff {Cloud : Type} (C : Collaborators Cloud) (s : ICP Cloud)
    (h : (iteration C s).returned = false) :
    (iteration C s).state.previous_transformation_ = s.transformation_ ∧
    (iteration C s).state.nr_iterations_ = s.nr_iterations_ + 1 ∧
    (Event.converge ∈ (iteration C s).events ↔
      convergenceCheck (iteration C s).state.nr_iterations_ s.max_iterations_
        (iteration C s).state.transformation_ (iteration C s).state.previous_transformation_
        s.transformation_epsilon_ = true) ∧
    (s.converged_ = false →
      ((iteration C s).state.converged_ = true ↔ Event.converge ∈ (iteration C s).events)) := by
  rcases iteration_cases C s with ⟨ev, _, hi⟩ | ⟨ev, src, tgt, _, _, hi⟩ |
    ⟨ev, src, tgt, T, hfc, _, _, hi⟩
  · rw [hi] at h; cases h
  · rw [hi] at h; cases h
  · rw [hi]
    have hev : ∀ e ∈ ev, ∃ i b, e = Event.search s.output i b := by
      intro e he
      exact findCorrespondences_events_search C s e (by rw [hfc]; exact he)
    have hno := converge_not_mem_searches s.output ev hev
    refine ⟨rfl, rfl, ?_, ?_⟩
    · simp only [afterEstimate]
      by_cases hc : convergenceCheck (s.nr_iterations_ + 1) s.max_iterations_ T
          s.transformation_ s.transformation_epsilon_ = true
      · simp [hc]
      · simp [hc, hno]
    · intro hs
      simp only [afterEstimate]
      by_cases hc : convergenceCheck (s.nr_iterations_ + 1) s.max_iterations_ T
          s.transformation_ s.transformation_epsilon_ = true
      · simp [hc]
      · simp [hc, hno, hs]

theorem convergenceCheck_iff (nr max : Int) (T P : Matrix4f) (eps : ℚ) :
    convergenceCheck nr max T P eps = true ↔ (nr ≥ max ∨ |Matrix4f.sum (T - P)| < eps) := by
  simp [convergenceCheck]

theorem findCorrespondences_onePoint :
    findCorrespondences rotatingCollaborators onePointICP =
      ([Event.search 0 0 true], some ([0], [7])) := by
  simp [findCorrespondences, searchLoop, rotatingCollaborators, onePointICP, resize]

theorem iteration_onePoint :
    iteration rotatingCollaborators onePointICP =
      { state := afterEstimate rotatingCollaborators onePointICP smallRotation
        returned := false
        events := [Event.search 0 0 true, Event.reject 0 [0] [7],
          Event.estimate 0 [0] [7] smallRotation, Event.transform 0 smallRotation,
          Event.converge] } := by
  have hge : ¬ ((rejectOutliers rotatingCollaborators onePointICP.output [0] [7]).1.length : Int)
      < onePointICP.min_number_correspondences_ := by
    simp [rejectOutliers, rotatingCollaborators, onePointICP]
  rw [iteration_of_enough _ _ _ _ _ findCorrespondences_onePoint hge]
  have hsum : Matrix4f.sum (smallRotation - 1) = 0 := by
    simp [Matrix4f.sum, smallRotation, Fin.sum_univ_four, Matrix.one_apply]
    norm_num
  simp [rejectOutliers, rotatingCollaborators, onePointICP, convergenceCheck, hsum]

/-- C1, as amended: in every pass of the loop body that reaches the convergence check, with
`T` the `transformation_` just estimated, `P` the `previous_transformation_` saved at the top
of the pass and `nr_iterations_` already incremented, `converged_ = true` is executed if and
only if `nr_iterations_ >= max_iterations_` or the absolute value of the sum of the 16 entries
of `T - P` is below `transformation_epsilon_`; inside the loop (where `converged_` is false
at the top of the pass) that is also when `converged_` is true after the pass. -/
theorem C1_converged_iff_abs_of_sum {Cloud : Type} (C : Collaborators Cloud) (s : ICP Cloud)
    (h : (iteration C s).returned = false) :
    (iteration C s).state.previous_transformation_ = s.transformation_ ∧
    (iteration C s).state.nr_iterations_ = s.nr_iterations_ + 1 ∧
    (Event.converge ∈ (iteration C s).events ↔
      ((iteration C s).state.nr_iterations_ ≥ s.max_iterations_ ∨
        |Matrix4f.sum ((iteration C s).state.transformation_ -
          (iteration C s).state.previous_transformation_)| < s.transformation_epsilon_)) ∧
    (s.converged_ = false →
      ((iteration C s).state.converged_ = true ↔
        ((iteration C s).state.nr_iterations_ ≥ s.max_iterations_ ∨
          |Matrix4f.sum ((iteration C s).state.transformation_ -
            (iteration C s).state.previous_transformation_)| < s.transformation_epsilon_))) := by
  obtain ⟨h1, h2, h3, h4⟩ := iteration_converge_iff C s h
  rw [convergenceCheck_iff] at h3
  exact ⟨h1, h2, h3, fun hs => (h4 hs).trans h3⟩

/-- C1, witness: the pass on one point with the estimator returning `smallRotation` reaches the
check, and there `converged_ = true` is executed exactly under the amended criterion. -/
theorem C1_converged_iff_abs_of_sum_witness :
    (iteration rotatingCollaborators onePointICP).returned = false ∧
    (Event.converge ∈ (iteration rotatingCollaborators onePointICP).events ↔
      ((iteration rotatingCollaborators onePointICP).state.nr_iterations_ ≥
          onePointICP.max_iterations_ ∨
        |Matrix4f.sum ((iteration rotatingCollaborators onePointICP).state.transformation_ -
          (iteration rotatingCollaborators onePointICP).state.previous_transformation_)| <
          onePointICP.transformation_epsilon_)) :=
  ⟨by rw [iteration_onePoint],
    (C1_converged_iff_abs_of_sum rotatingCollaborators onePointICP
      (by rw [iteration_onePoint])).2.2.1⟩

/-- C1, counterexample: with `P` the identity, `T = smallRotation`, `max_iterations_ = 10` and
`transformation_epsilon_ = 1`, the first pass reaches the check with `nr_iterations_ = 1 < 10`
and the sum of the absolute differences equal to `2`, not below `1`; yet `converged_` is set to
true, because the signed differences `+1` and `-1` cancel in the sum the code takes. -/
theorem C1_counterexample :
    (iteration rotatingCollaborators onePointICP).returned = false ∧
    (iteration rotatingCollaborators onePointICP).state.converged_ = true ∧
    ¬ (Event.converge ∈ (iteration rotatingCollaborators onePointICP).events ↔
      ((iteration rotatingCollaborators onePointICP).state.nr_iterations_ ≥
          onePointICP.max_iterations_ ∨
        Matrix4f.absSum ((iteration rotatingCollaborators onePointICP).state.transformation_ -
          (iteration rotatingCollaborators onePointICP).state.previous_transformation_) <
          onePointICP.transformation_epsilon_)) := by
  have habs : Matrix4f.absSum (smallRotation - 1) = 2 := by
    simp [Matrix4f.absSum, smallRotation, Fin.sum_univ_four, Matrix.one_apply]
    norm_num
  have hsum : Matrix4f.sum (smallRotation - 1) = 0 := by
    simp [Matrix4f.sum, smallRotation, Fin.sum_univ_four, Matrix.one_apply]
    norm_num
  rw [iteration_onePoint]
  refine ⟨rfl, ?_, ?_⟩
  · simp [afterEstimate, onePointICP, convergenceCheck, hsum]
  · simp only [afterEstimate, onePointICP, habs]
    norm_num

/-! ## The composition order (C2) -/

theorem increments_initialGuess {Cloud : Type} (C : Collaborators Cloud) (s : ICP Cloud)
    (guess : Matrix4f) : increments (initialGuess C s guess).2 = [] := by
  unfold initialGuess
  split <;> rfl

/-- The call returns with `final_transformation_` the product of the increments of its passes,
later ones on the left, times the value after the initial-guess step. -/
theorem computeTransformation_final {Cloud : Type} (C : Collaborators Cloud) (s : ICP Cloud)
    (guess : Matrix4f) :
    ∃ r tr, computeTransformation C s guess = some (r, tr) ∧
      r.final_transformation_ =
        (increments tr).reverse.prod * (initialGuess C s guess).1.final_transformation_ ∧
      r.nr_iterations_ = ((increments tr).length : Int) := by
  obtain ⟨⟨r, tr⟩, h⟩ := computeTransformation_total C s guess
  refine ⟨r, tr, h, ?_⟩
  unfold computeTransformation at h
  obtain ⟨ev, e1, e2, e3⟩ := whileLoop_final C _ _ _ _ _ h
  have hnr : (initialGuess C s guess).1.nr_iterations_ = 0 := by
    unfold initialGuess; split <;> rfl
  rw [e1, increments_append, increments_initialGuess, List.nil_append]
  exact ⟨e2, by rw [e3, hnr, zero_add]⟩

theorem computeTransformation_twoStep :
    computeTransformation twoStepCollaborators twoStepICP 1 =
      some
        ({ twoStepICP with
            nr_iterations_ := 2
            converged_ := true
            transformation_ := quarterTurnZ
            previous_transformation_ := translationX
            final_transformation_ := quarterTurnZ * translationX
            output := 2 },
          [Event.search 0 0 true, Event.reject 0 [0] [7],
            Event.estimate 0 [0] [7] translationX, Event.transform 0 translationX,
            Event.search 1 0 true, Event.reject 1 [0] [7],
            Event.estimate 1 [0] [7] quarterTurnZ, Event.transform 1 quarterTurnZ,
            Event.converge]) := by
  have h0 : ¬ |Matrix4f.sum (translationX - 1)| < 0 := not_lt.mpr (abs_nonneg _)
  simp [computeTransformation, initialGuess, whileLoop, iteration, findCorrespondences,
    searchLoop, resize, rejectOutliers, convergenceCheck, twoStepCollaborators, twoStepICP, h0]

theorem quarterTurnZ_translationX_ne :
    quarterTurnZ * translationX ≠ translationX * quarterTurnZ := by
  intro h
  have h03 := congrFun (congrFun h 0) 3
  simp [quarterTurnZ, translationX, Matrix.mul_apply, Fin.sum_univ_four] at h03

/-- C2: every call of `computeTransformation` returns, and with `T1, ..., Tn` the increments
returned by the estimator in its `n` completed passes (in that order) and `F0` the cumulative
transformation after the initial-guess step, on return `nr_iterations_ = n` and
`final_transformation_ = Tn * ... * T2 * T1 * F0`; in particular for `n = 2` and `F0` the
identity the result is `T2 * T1`. -/
theorem C2_final_is_left_product {Cloud : Type} (C : Collaborators Cloud) (s : ICP Cloud)
    (guess : Matrix4f) :
    ∃ r tr, computeTransformation C s guess = some (r, tr) ∧
      r.nr_iterations_ = ((increments tr).length : Int) ∧
      r.final_transformation_ =
        (increments tr).reverse.prod * (initialGuess C s guess).1.final_transformation_ ∧
      (∀ T1 T2 : Matrix4f, increments tr = [T1, T2] →
        (initialGuess C s guess).1.final_transformation_ = 1 →
        r.final_transformation_ = T2 * T1) := by
  obtain ⟨r, tr, h, hf, hn⟩ := computeTransformation_final C s guess
  refine ⟨r, tr, h, hn, hf, ?_⟩
  intro T1 T2 hinc hF
  rw [hf, hinc, hF]
  simp

/-- C2, witness: with the estimator returning the translation by `(1, 0, 0)` in the first pass
and the quarter turn about z in the second, the call completes two passes and returns
`quarterTurnZ * translationX`, which differs from `translationX * quarterTurnZ`. -/
theorem C2_final_is_left_product_witness :
    ∃ r tr, computeTransformation twoStepCollaborators twoStepICP 1 = some (r, tr) ∧
      increments tr = [translationX, quarterTurnZ] ∧
      r.final_transformation_ = quarterTurnZ * translationX ∧
      r.final_transformation_ ≠ translationX * quarterTurnZ := by
  obtain ⟨r, tr, h, _, _, h2⟩ := C2_final_is_left_product twoStepCollaborators twoStepICP 1
  have heval := computeTransformation_twoStep
  rw [h] at heval
  have htr : increments tr = [translationX, quarterTurnZ] := by
    have := congrArg (fun o => o.map (fun p => increments p.2)) heval
    simpa [increments] using this
  have hF : (initialGuess twoStepCollaborators twoStepICP 1).1.final_transformation_ = 1 := by
    simp [initialGuess, twoStepICP]
  have hfin := h2 _ _ htr hF
  exact ⟨r, tr, h, htr, hfin, by rw [hfin]; exact quarterTurnZ_translationX_ne⟩

/-! ## The two `return` statements (C3, C4) -/

/-- Inside the loop, a pass that returns ends the call in the state of that pass. -/
theorem whileLoop_returned {Cloud : Type} (C : Collaborators Cloud) (s : ICP Cloud)
    (hs : s.converged_ = false) (hr : (iteration C s).returned = true) (fuel : Nat)
    (tr : List (Event Cloud)) :
    whileLoop C (fuel + 1) s tr =
      some ((iteration C s).state, tr ++ (iteration C s).events) := by
  rw [whileLoop_succ C fuel s tr hs]
  simp [hr]

theorem findCorrespondences_onePointStrict :
    findCorrespondences rotatingCollaborators onePointStrictICP =
      ([Event.search 0 0 true], some ([0], [7])) := by
  simp [findCorrespondences, searchLoop, rotatingCollaborators, onePointStrictICP, onePointICP,
    resize]

/-- C3: in every pass of the loop body in which all searches succeed, if the number of
correspondences left after the distance test and the outlier rejection is below
`min_number_correspondences_`, the pass executes the `return` of line 144 with
`converged_ = false` (so a call inside its loop ends there) and does not call the
transformation estimator; if the number is at least `min_number_correspondences_`, the pass
does not return and calls the estimator exactly once. -/
theorem C3_minimum_number_of_correspondences {Cloud : Type} (C : Collaborators Cloud)
    (s : ICP Cloud) (ev : List (Event Cloud)) (src tgt : List Int)
    (h : findCorrespondences C s = (ev, some (src, tgt))) :
    (((rejectOutliers C s.output src tgt).1.length : Int) < s.min_number_correspondences_ →
      (iteration C s).returned = true ∧
      (iteration C s).state.converged_ = false ∧
      (iteration C s).events.countP Event.isEstimate = 0 ∧
      (s.converged_ = false → ∀ (fuel : Nat) (tr : List (Event Cloud)),
        whileLoop C (fuel + 1) s tr =
          some ((iteration C s).state, tr ++ (iteration C s).events))) ∧
    (((rejectOutliers C s.output src tgt).1.length : Int) ≥ s.min_number_correspondences_ →
      (iteration C s).returned = false ∧
      (iteration C s).events.countP Event.isEstimate = 1) := by
  have hev : ∀ e ∈ ev, ∃ i b, e = Event.search s.output i b := by
    intro e he
    exact findCorrespondences_events_search C s e (by rw [h]; exact he)
  have h0 := countP_isEstimate_of_searches s.output ev hev
  constructor
  · intro hlt
    have hi := iteration_of_too_few C s ev src tgt h hlt
    have hr : (iteration C s).returned = true := by rw [hi]
    refine ⟨hr, by rw [hi]; rfl, ?_, fun hs fuel tr => whileLoop_returned C s hs hr fuel tr⟩
    rw [hi]
    simp [List.countP_append, h0, Event.isEstimate]
  · intro hge
    have hi := iteration_of_enough C s ev src tgt h (not_lt.mpr hge)
    rw [hi]
    refine ⟨rfl, ?_⟩
    simp only [List.countP_append, h0]
    split <;> simp [List.countP_cons, Event.isEstimate]

/-- C3, witness: on one point with one correspondence found, the pass returns without calling
the estimator when two correspondences are required, and calls it once when one is. -/
theorem C3_minimum_number_of_correspondences_witness :
    ((iteration rotatingCollaborators onePointStrictICP).returned = true ∧
      (iteration rotatingCollaborators onePointStrictICP).state.converged_ = false ∧
      (iteration rotatingCollaborators onePointStrictICP).events.countP Event.isEstimate = 0) ∧
    ((iteration rotatingCollaborators onePointICP).returned = false ∧
      (iteration rotatingCollaborators onePointICP).events.countP Event.isEstimate = 1) := by
  have h1 := (C3_minimum_number_of_correspondences rotatingCollaborators onePointStrictICP _ _ _
    findCorrespondences_onePointStrict).1
    (by simp [rejectOutliers, rotatingCollaborators, onePointStrictICP, onePointICP])
  have h2 := (C3_minimum_number_of_correspondences rotatingCollaborators onePointICP _ _ _
    findCorrespondences_onePoint).2
    (by simp [rejectOutliers, rotatingCollaborators, onePointICP])
  exact ⟨⟨h1.1, h1.2.1, h1.2.2.1⟩, h2⟩

/-- C4: in every pass of the loop body (entered with `converged_` false, as the loop does) in
which `searchForNeighbors` fails for some position of the index subset, there is a first such
position `k`; the pass queries exactly the positions `0, ..., k` in that order and executes the
`return` of line 85 (so a call inside its loop ends there), `converged_` is false on return,
and neither the outlier rejection nor the transformation estimator is called in the pass. -/
theorem C4_search_failure_aborts {Cloud : Type} (C : Collaborators Cloud) (s : ICP Cloud)
    (hs : s.converged_ = false)
    (hfail : ∃ idx, idx < s.indices_size ∧ C.searchForNeighbors s.output idx = none) :
    ∃ k, k < s.indices_size ∧ C.searchForNeighbors s.output k = none ∧
      (∀ i, i < k → C.searchForNeighbors s.output i ≠ none) ∧
      (iteration C s).returned = true ∧
      (iteration C s).events =
        (List.range k).map (fun i => Event.search s.output i true) ++
          [Event.search s.output k false] ∧
      (iteration C s).state.converged_ = false ∧
      (iteration C s).events.countP Event.isReject = 0 ∧
      (iteration C s).events.countP Event.isEstimate = 0 ∧
      (∀ (fuel : Nat) (tr : List (Event Cloud)),
        whileLoop C (fuel + 1) s tr =
          some ((iteration C s).state, tr ++ (iteration C s).events)) := by
  classical
  have hk := Nat.find_spec hfail
  have hmin : ∀ i, i < Nat.find hfail → C.searchForNeighbors s.output i ≠ none := by
    intro i hi hnone
    exact Nat.find_min hfail hi ⟨by omega, hnone⟩
  have hfc := findCorrespondences_none C s (Nat.find hfail) hk.1 hmin hk.2
  have hi := iteration_of_search_none C s _ hfc
  have hr : (iteration C s).returned = true := by rw [hi]
  have hev : ∀ e ∈ (iteration C s).events, ∃ i b, e = Event.search s.output i b := by
    intro e he
    rw [hi] at he
    exact findCorrespondences_events_search C s e (by rw [hfc]; exact he)
  refine ⟨Nat.find hfail, hk.1, hk.2, hmin, hr, by rw [hi], by rw [hi]; exact hs,
    countP_isReject_of_searches s.output _ hev, countP_isEstimate_of_searches s.output _ hev,
    fun fuel tr => whileLoop_returned C s hs hr fuel tr⟩

/-- C4, witness: with three active points and a search that fails at position `1`, the pass
queries positions `0` and `1` only and returns with `converged_` false. -/
theorem C4_search_failure_aborts_witness :
    (iteration failingCollaborators threePointICP).returned = true ∧
    (iteration failingCollaborators threePointICP).events =
      [Event.search 0 0 true, Event.search 0 1 false] ∧
    (iteration failingCollaborators threePointICP).state.converged_ = false := by
  obtain ⟨k, hk, hnone, hbefore, hr, hev, hc, _⟩ :=
    C4_search_failure_aborts failingCollaborators threePointICP rfl
      ⟨1, by simp [threePointICP, onePointICP], by simp [failingCollaborators]⟩
  have hk1 : k = 1 := by
    by_contra hne
    have h1 : ¬ k = 1 := hne
    simp [failingCollaborators, h1] at hnone
  subst hk1
  exact ⟨hr, by simpa [threePointICP, onePointICP, List.range_succ] using hev, hc⟩

/-! ## The outlier rejection (C5, C6) -/

/-- When lines 75-97 end normally, every search succeeded and the two lists are the kept
correspondences. -/
theorem findCorrespondences_lists {Cloud : Type} (C : Collaborators Cloud) (s : ICP Cloud)
    (ev : List (Event Cloud)) (src tgt : List Int)
    (h : findCorrespondences C s = (ev, some (src, tgt))) :
    (∀ i, i < s.indices_size → C.searchForNeighbors s.output i ≠ none) ∧
    ev = (List.range s.indices_size).map (fun i => Event.search s.output i true) ∧
    src = (kept C s.output (s.corr_dist_threshold_ * s.corr_dist_threshold_) 0
      s.indices_size).map Prod.fst ∧
    tgt = (kept C s.output (s.corr_dist_threshold_ * s.corr_dist_threshold_) 0
      s.indices_size).map Prod.snd := by
  have hall := (findCorrespondences_isSome_iff C s).mp (by rw [h]; simp)
  have h2 := findCorrespondences_some C s hall
  rw [h] at h2
  simp only [Prod.mk.injEq, Option.some.injEq] at h2
  exact ⟨hall, h2.1, h2.2.1, h2.2.2⟩

theorem foldl_update_spec (l : List (Int × Int)) :
    ∀ (m : Int → Int) (x : Int),
      (x ∈ l.map Prod.fst →
        (x, l.foldl (fun m p => Function.update m p.1 p.2) m x) ∈ l) ∧
      (x ∉ l.map Prod.fst → l.foldl (fun m p => Function.update m p.1 p.2) m x = m x) := by
  induction l with
  | nil => intro m x; simp
  | cons p l ih =>
    intro m x
    obtain ⟨ih1, ih2⟩ := ih (Function.update m p.1 p.2) x
    simp only [List.foldl_cons, List.map_cons, List.mem_cons]
    by_cases hx : x ∈ l.map Prod.fst
    · exact ⟨fun _ => Or.inr (ih1 hx), fun hn => absurd (Or.inr hx) hn⟩
    · rw [ih2 hx]
      constructor
      · intro hmem
        rcases hmem with hp | hp
        · left
          rw [hp, Function.update_same]
        · exact absurd hp hx
      · intro hn
        have hne : x ≠ p.1 := fun hp => hn (Or.inl hp)
        rw [Function.update_noteq hne]

/-- Every key inserted into `source_to_target` reads back as a target it was inserted with. -/
theorem source_to_target_mem (src tgt : List Int) (hlen : src.length = tgt.length) (x : Int)
    (hx : x ∈ src) : (x, source_to_target src tgt x) ∈ List.zip src tgt := by
  have hfst : (List.zip src tgt).map Prod.fst = src :=
    List.map_fst_zip src tgt (le_of_eq hlen)
  exact (foldl_update_spec (List.zip src tgt) (fun _ => 0) x).1 (by rw [hfst]; exact hx)

theorem zip_map_mem (L : List Int) (f : Int → Int) (p : Int × Int)
    (hp : p ∈ List.zip L (L.map f)) : p.1 ∈ L ∧ p.2 = f p.1 := by
  induction L with
  | nil => simp at hp
  | cons a L ih =>
    simp only [List.map_cons, List.zip_cons_cons, List.mem_cons] at hp
    rcases hp with hp | hp
    · subst hp; exact ⟨List.mem_cons_self _ _, rfl⟩
    · exact ⟨List.mem_cons_of_mem _ (ih hp).1, (ih hp).2⟩

/-- C5: in every pass of the loop body in which all searches succeed and the robust model
fails to fit (`sac.computeModel ()` returns false), `source_indices_good` and
`target_indices_good` are exactly the distance-filtered `source_indices` and `target_indices`;
they are the lists the minimum-count check counts (the pass returns exactly when their length
is below `min_number_correspondences_`) and the lists the only estimator call of the pass
receives. -/
theorem C5_degenerate_fit_keeps_all {Cloud : Type} (C : Collaborators Cloud) (s : ICP Cloud)
    (ev : List (Event Cloud)) (src tgt : List Int)
    (h : findCorrespondences C s = (ev, some (src, tgt)))
    (hm : C.computeModel s.output src tgt = none) :
    rejectOutliers C s.output src tgt = (src, tgt) ∧
    ((iteration C s).returned = true ↔ (src.length : Int) < s.min_number_correspondences_) ∧
    ((iteration C s).returned = false →
      (iteration C s).events.filter Event.isEstimate =
        [Event.estimate s.output src tgt (iteration C s).state.transformation_]) := by
  have hgood : rejectOutliers C s.output src tgt = (src, tgt) := by
    simp [rejectOutliers, hm]
  have hev : ∀ e ∈ ev, ∃ i b, e = Event.search s.output i b := by
    intro e he
    exact findCorrespondences_events_search C s e (by rw [h]; exact he)
  have hfilter : ev.filter Event.isEstimate = [] := by
    rw [List.filter_eq_nil_iff]
    intro e he
    obtain ⟨i, b, rfl⟩ := hev e he
    simp [Event.isEstimate]
  refine ⟨hgood, ?_, ?_⟩
  · by_cases hlt : ((rejectOutliers C s.output src tgt).1.length : Int) <
        s.min_number_correspondences_
    · rw [iteration_of_too_few C s ev src tgt h hlt]
      rw [hgood] at hlt
      simpa using hlt
    · rw [iteration_of_enough C s ev src tgt h hlt]
      rw [hgood] at hlt
      simpa using hlt
  · intro hr
    by_cases hlt : ((rejectOutliers C s.output src tgt).1.length : Int) <
        s.min_number_correspondences_
    · rw [iteration_of_too_few C s ev src tgt h hlt] at hr; cases hr
    · rw [iteration_of_enough C s ev src tgt h hlt]
      simp only [List.filter_append, hfilter, hgood, afterEstimate]
      split <;> simp [List.filter_cons, Event.isEstimate]

/-- C5, witness: on one point with a robust model that never fits, the estimator receives the
one correspondence `(0, 7)` the distance test kept. -/
theorem C5_degenerate_fit_keeps_all_witness :
    rejectOutliers rotatingCollaborators onePointICP.output [0] [7] = ([0], [7]) ∧
    (iteration rotatingCollaborators onePointICP).events.filter Event.isEstimate =
      [Event.estimate onePointICP.output [0] [7]
        (iteration rotatingCollaborators onePointICP).state.transformation_] := by
  have h := C5_degenerate_fit_keeps_all rotatingCollaborators onePointICP _ _ _
    findCorrespondences_onePoint rfl
  exact ⟨h.1, h.2.2 (by rw [iteration_onePoint])⟩

theorem findCorrespondences_threePoint :
    findCorrespondences inlierCollaborators threePointICP =
      ([Event.search 0 0 true, Event.search 0 1 true, Event.search 0 2 true],
        some ([0, 1, 2], [10, 11, 12])) := by
  simp [findCorrespondences, searchLoop, inlierCollaborators, threePointICP, onePointICP, resize]

/-- C6: in every pass of the loop body in which all searches succeed and the robust model fits
and reports an inlier list `L` all of whose elements occur in the distance-filtered
`source_indices`, `source_indices_good` is `L`, `target_indices_good` has the same length, and
at every position `i` the pair `(source_indices_good[i], target_indices_good[i])` is a pair
`(source_indices[j], target_indices[j])` of the distance-filtered lists. -/
theorem C6_inliers_keep_their_targets {Cloud : Type} (C : Collaborators Cloud) (s : ICP Cloud)
    (ev : List (Event Cloud)) (src tgt L : List Int)
    (h : findCorrespondences C s = (ev, some (src, tgt)))
    (hm : C.computeModel s.output src tgt = some L)
    (hL : ∀ x ∈ L, x ∈ src) :
    (rejectOutliers C s.output src tgt).1 = L ∧
    (rejectOutliers C s.output src tgt).2.length = L.length ∧
    (∀ p ∈ List.zip (rejectOutliers C s.output src tgt).1 (rejectOutliers C s.output src tgt).2,
      p ∈ List.zip src tgt) ∧
    (∀ i, i < L.length → ∃ j a b, j < src.length ∧
      (rejectOutliers C s.output src tgt).1[i]? = some a ∧
      (rejectOutliers C s.output src tgt).2[i]? = some b ∧
      src[j]? = some a ∧ tgt[j]? = some b) := by
  obtain ⟨_, _, hsrc, htgt⟩ := findCorrespondences_lists C s ev src tgt h
  have hlen : src.length = tgt.length := by rw [hsrc, htgt]; simp
  have hgood : rejectOutliers C s.output src tgt = (L, L.map (source_to_target src tgt)) := by
    simp [rejectOutliers, hm]
  rw [hgood]
  refine ⟨rfl, by simp, ?_, ?_⟩
  · intro p hp
    obtain ⟨h1, h2⟩ := zip_map_mem L _ p hp
    have := source_to_target_mem src tgt hlen p.1 (hL _ h1)
    rw [← h2] at this
    exact this
  · intro i hi
    have hmem := source_to_target_mem src tgt hlen L[i] (hL _ (List.getElem_mem hi))
    obtain ⟨j, hj⟩ := List.mem_iff_getElem?.mp hmem
    rw [List.getElem?_zip_eq_some] at hj
    have hjlt : j < src.length := by
      by_contra hge
      rw [List.getElem?_eq_none (by omega)] at hj
      exact absurd hj.1 (by simp)
    refine ⟨j, L[i], source_to_target src tgt L[i], hjlt, ?_, ?_, hj.1, hj.2⟩
    · simp [hi]
    · simp [hi]

/-- C6, witness: with the correspondences `(0, 10), (1, 11), (2, 12)` kept and the inlier list
`[1]`, the lists handed on are `[1]` and `[11]`. -/
theorem C6_inliers_keep_their_targets_witness :
    (rejectOutliers inlierCollaborators threePointICP.output [0, 1, 2] [10, 11, 12]).1 = [1] ∧
    (∀ p ∈ List.zip
        (rejectOutliers inlierCollaborators threePointICP.output [0, 1, 2] [10, 11, 12]).1
        (rejectOutliers inlierCollaborators threePointICP.output [0, 1, 2] [10, 11, 12]).2,
      p ∈ List.zip [0, 1, 2] [10, 11, 12]) ∧
    (rejectOutliers inlierCollaborators threePointICP.output [0, 1, 2] [10, 11, 12]).2 = [11] := by
  have h := C6_inliers_keep_their_targets inlierCollaborators threePointICP _ _ _ [1]
    findCorrespondences_threePoint rfl (by simp)
  refine ⟨h.1, h.2.2.1, ?_⟩
  simp [rejectOutliers, inlierCollaborators, source_to_target, Function.update]

/-! ## The distance test (C7) -/

theorem mem_kept {Cloud : Type} (C : Collaborators Cloud) (output : Cloud) (thr : ℚ)
    (idx remaining : Nat) (a b : Int) :
    (a, b) ∈ kept C output thr idx remaining ↔
      ∃ i d, idx ≤ i ∧ i < idx + remaining ∧ a = (i : Int) ∧
        C.searchForNeighbors output i = some (b, d) ∧ d < thr := by
  unfold kept
  simp only [List.mem_filterMap, List.mem_range'_1]
  constructor
  · rintro ⟨i, ⟨h1, h2⟩, hk⟩
    unfold keptAt at hk
    rcases hq : C.searchForNeighbors output i with _ | ⟨nn, d⟩
    · rw [hq] at hk; cases hk
    · rw [hq] at hk
      by_cases hd : d < thr
      · simp only [hd, if_true, Option.some.injEq, Prod.mk.injEq] at hk
        exact ⟨i, d, h1, h2, hk.1.symm, by rw [← hk.2]; exact hq, hd⟩
      · simp [hd] at hk
  · rintro ⟨i, d, h1, h2, ha, hq, hd⟩
    exact ⟨i, ⟨h1, h2⟩, by simp [keptAt, hq, hd, ha]⟩

/-- The kept source positions are strictly increasing. -/
theorem kept_fst_pairwise {Cloud : Type} (C : Collaborators Cloud) (output : Cloud) (thr : ℚ)
    (idx remaining : Nat) :
    ((kept C output thr idx remaining).map Prod.fst).Pairwise (fun a b => a < b) := by
  unfold kept
  rw [List.pairwise_map]
  refine List.Pairwise.filterMap (keptAt C output thr) ?_ (List.pairwise_lt_range' idx remaining)
  intro i j hij p hp q hq
  have hp1 : p.1 = (i : Int) := by
    unfold keptAt at hp
    rcases hs : C.searchForNeighbors output i with _ | ⟨nn, d⟩
    · rw [hs] at hp; cases hp
    · rw [hs] at hp
      by_cases hd : d < thr
      · simp only [hd, if_true, Option.mem_def, Option.some.injEq] at hp
        rw [← hp]
      · simp [hd] at hp
  have hq1 : q.1 = (j : Int) := by
    unfold keptAt at hq
    rcases hs : C.searchForNeighbors output j with _ | ⟨nn, d⟩
    · rw [hs] at hq; cases hq
    · rw [hs] at hq
      by_cases hd : d < thr
      · simp only [hd, if_true, Option.mem_def, Option.some.injEq] at hq
        rw [← hq]
      · simp [hd] at hq
  rw [hp1, hq1]
  exact_mod_cast hij

theorem zip_map_fst_map_snd (l : List (Int × Int)) :
    List.zip (l.map Prod.fst) (l.map Prod.snd) = l := by
  induction l with
  | nil => rfl
  | cons p l ih => simp [ih]

/-- A pass in which every search succeeds hands the lists of lines 75-97 to the robust model. -/
theorem iteration_reject_mem {Cloud : Type} (C : Collaborators Cloud) (s : ICP Cloud)
    (ev : List (Event Cloud)) (src tgt : List Int)
    (h : findCorrespondences C s = (ev, some (src, tgt))) :
    Event.reject s.output src tgt ∈ (iteration C s).events := by
  by_cases hlt : ((rejectOutliers C s.output src tgt).1.length : Int) <
      s.min_number_correspondences_
  · rw [iteration_of_too_few C s ev src tgt h hlt]; simp
  · rw [iteration_of_enough C s ev src tgt h hlt]; simp

/-- C7, as amended: in every pass of the loop body in which all neighbour searches succeed, the
lists `source_indices` and `target_indices` handed to the robust outlier-rejection model hold
exactly the positions whose squared nearest-neighbour distance is strictly below
`corr_dist_threshold_ * corr_dist_threshold_` (so none whose squared distance is equal to it or
above), in ascending order of position, each paired with the neighbour index returned for
that position. -/
theorem C7_distance_filter_is_strict {Cloud : Type} (C : Collaborators Cloud) (s : ICP Cloud)
    (hall : ∀ i, i < s.indices_size → C.searchForNeighbors s.output i ≠ none) :
    ∃ src tgt,
      findCorrespondences C s =
        ((List.range s.indices_size).map (fun i => Event.search s.output i true),
          some (src, tgt)) ∧
      Event.reject s.output src tgt ∈ (iteration C s).events ∧
      src.length = tgt.length ∧
      List.zip src tgt = (List.range s.indices_size).filterMap
        (keptAt C s.output (s.corr_dist_threshold_ * s.corr_dist_threshold_)) ∧
      (∀ a b, (a, b) ∈ List.zip src tgt ↔
        ∃ i d, i < s.indices_size ∧ a = (i : Int) ∧
          C.searchForNeighbors s.output i = some (b, d) ∧
          d < s.corr_dist_threshold_ * s.corr_dist_threshold_) ∧
      src.Pairwise (fun a b => a < b) := by
  have h := findCorrespondences_some C s hall
  refine ⟨_, _, h, iteration_reject_mem C s _ _ _ h, by simp, ?_, ?_, kept_fst_pairwise _ _ _ _ _⟩
  · rw [zip_map_fst_map_snd, List.range_eq_range']; rfl
  · intro a b
    rw [zip_map_fst_map_snd, mem_kept]
    constructor
    · rintro ⟨i, d, _, h2, h3⟩
      exact ⟨i, d, by omega, h3⟩
    · rintro ⟨i, d, h1, h3⟩
      exact ⟨i, d, Nat.zero_le _, by omega, h3⟩

/-- C7, witness: with three points whose searches all succeed at squared distance `0` and
threshold `1`, all three positions are handed on, each with its neighbour. -/
theorem C7_distance_filter_is_strict_witness :
    ∃ src tgt, Event.reject threePointICP.output src tgt ∈
        (iteration inlierCollaborators threePointICP).events ∧
      List.zip src tgt = [(0, 10), (1, 11), (2, 12)] := by
  obtain ⟨src, tgt, h1, h2, _, _, _, _⟩ :=
    C7_distance_filter_is_strict inlierCollaborators threePointICP
      (by simp [inlierCollaborators])
  rw [findCorrespondences_threePoint] at h1
  simp only [Prod.mk.injEq, Option.some.injEq] at h1
  refine ⟨src, tgt, h2, ?_⟩
  rw [← h1.2.1, ← h1.2.2]
  rfl

/-- C7, counterexample: with one point whose nearest neighbour lies at squared distance `1`
and `corr_dist_threshold_ = 1`, the squared distance does not exceed the squared threshold,
so the specification keeps the correspondence `(0, 7)`; the code hands empty lists to the robust
model. -/
theorem C7_counterexample :
    (∀ i, i < onePointICP.indices_size →
      boundaryCollaborators.searchForNeighbors onePointICP.output i ≠ none) ∧
    (List.range onePointICP.indices_size).filterMap
      (notExceedingAt boundaryCollaborators onePointICP.output
        (onePointICP.corr_dist_threshold_ * onePointICP.corr_dist_threshold_)) = [(0, 7)] ∧
    findCorrespondences boundaryCollaborators onePointICP =
      ([Event.search 0 0 true], some ([], [])) ∧
    ¬ ∃ src tgt, (findCorrespondences boundaryCollaborators onePointICP).2 = some (src, tgt) ∧
      List.zip src tgt = (List.range onePointICP.indices_size).filterMap
        (notExceedingAt boundaryCollaborators onePointICP.output
          (onePointICP.corr_dist_threshold_ * onePointICP.corr_dist_threshold_)) := by
  have hspec : (List.range onePointICP.indices_size).filterMap
      (notExceedingAt boundaryCollaborators onePointICP.output
        (onePointICP.corr_dist_threshold_ * onePointICP.corr_dist_threshold_)) = [(0, 7)] := by
    simp [onePointICP, List.range_succ, notExceedingAt, boundaryCollaborators]
  have hcode : findCorrespondences boundaryCollaborators onePointICP =
      ([Event.search 0 0 true], some ([], [])) := by
    simp [findCorrespondences, searchLoop, boundaryCollaborators, onePointICP, resize]
  refine ⟨by simp [boundaryCollaborators], hspec, hcode, ?_⟩
  rintro ⟨src, tgt, h1, h2⟩
  rw [hcode] at h1
  simp only [Option.some.injEq, Prod.mk.injEq] at h1
  rw [hspec, ← h1.1, ← h1.2] at h2
  simp at h2

/-! ## Hard failures (C8, C9) -/

/-- A pass returns exactly on a hard failure: a failed search, or too few correspondences. -/
theorem iteration_returned_iff {Cloud : Type} (C : Collaborators Cloud) (s : ICP Cloud) :
    (iteration C s).returned = true ↔
      ((∃ idx, idx < s.indices_size ∧ C.searchForNeighbors s.output idx = none) ∨
        (∃ ev src tgt, findCorrespondences C s = (ev, some (src, tgt)) ∧
          ((rejectOutliers C s.output src tgt).1.length : Int) <
            s.min_number_correspondences_)) := by
  constructor
  · intro h
    rcases iteration_cases C s with ⟨ev, hfc, _⟩ | ⟨ev, src, tgt, hfc, hlt, _⟩ |
      ⟨ev, src, tgt, T, _, _, _, hi⟩
    · left
      by_contra hno
      push_neg at hno
      have := (findCorrespondences_isSome_iff C s).mpr hno
      rw [hfc] at this
      exact this rfl
    · exact Or.inr ⟨ev, src, tgt, hfc, hlt⟩
    · rw [hi] at h; cases h
  · rintro (⟨idx, hidx, hnone⟩ | ⟨ev, src, tgt, hfc, hlt⟩)
    · rcases hfc : findCorrespondences C s with ⟨ev, _ | ⟨src, tgt⟩⟩
      · rw [iteration_of_search_none C s ev hfc]
      · exact absurd hnone ((findCorrespondences_lists C s ev src tgt hfc).1 idx hidx)
    · rw [iteration_of_too_few C s ev src tgt hfc hlt]

theorem initialGuess_facts {Cloud : Type} (C : Collaborators Cloud) (s : ICP Cloud)
    (guess : Matrix4f) :
    (initialGuess C s guess).1.nr_iterations_ = 0 ∧
    (initialGuess C s guess).1.converged_ = false ∧
    (initialGuess C s guess).1.max_iterations_ = s.max_iterations_ ∧
    (initialGuess C s guess).1.transformation_ = s.transformation_ := by
  unfold initialGuess
  split <;> exact ⟨rfl, rfl, rfl, rfl⟩

theorem initialGuess_identity {Cloud : Type} (C : Collaborators Cloud) (s : ICP Cloud) :
    initialGuess C s 1 = ({ s with nr_iterations_ := 0, converged_ := false }, []) := by
  simp [initialGuess]

/-- As long as the passes reach the end of the body, each adds one to `nr_iterations_`. -/
theorem passes_nr {Cloud : Type} (C : Collaborators Cloud) (s : ICP Cloud) :
    ∀ k, (∀ j, j < k → (iteration C (passes C j s)).returned = false) →
      (passes C k s).nr_iterations_ = s.nr_iterations_ + (k : Int) ∧
      (passes C k s).max_iterations_ = s.max_iterations_ := by
  intro k
  induction k with
  | zero => intro _; exact ⟨by simp [passes], rfl⟩
  | succ k ih =>
    intro h
    obtain ⟨h1, h2⟩ := ih (fun j hj => h j (by omega))
    obtain ⟨h3, h4, _⟩ := iteration_not_returned C (passes C k s) (h k (by omega))
    refine ⟨?_, ?_⟩
    · show (iteration C (passes C k s)).state.nr_iterations_ = _
      rw [h3, h1]; push_cast; ring
    · show (iteration C (passes C k s)).state.max_iterations_ = _
      rw [h4, h2]

/-- The loop goes through its first `k` passes when none of them returns or converges. -/
theorem whileLoop_passes {Cloud : Type} (C : Collaborators Cloud) (s : ICP Cloud)
    (hs : s.converged_ = false) :
    ∀ (k fuel : Nat) (tr : List (Event Cloud)),
      (∀ j, j < k → (iteration C (passes C j s)).returned = false ∧
        (passes C (j + 1) s).converged_ = false) →
      (passes C k s).converged_ = false ∧
      ∃ trk, whileLoop C (fuel + k) s tr = whileLoop C fuel (passes C k s) trk := by
  intro k
  induction k with
  | zero => intro fuel tr _; exact ⟨hs, tr, rfl⟩
  | succ k ih =>
    intro fuel tr h
    obtain ⟨hck, trk, hk⟩ := ih (fuel + 1) tr (fun j hj => h j (by omega))
    obtain ⟨hr, hc⟩ := h k (by omega)
    refine ⟨hc, trk ++ (iteration C (passes C k s)).events, ?_⟩
    have e : fuel + (k + 1) = fuel + 1 + k := by omega
    rw [e, hk, whileLoop_succ C fuel _ trk hck]
    simp only [hr, Bool.false_eq_true, if_false]
    rfl

/-- A hard failure in pass `k + 1` ends the call in the state that pass leaves. -/
theorem computeTransformation_of_failure {Cloud : Type} (C : Collaborators Cloud) (s : ICP Cloud)
    (guess : Matrix4f) (k : Nat)
    (hcont : ∀ j, j < k →
      (iteration C (passes C j (initialGuess C s guess).1)).returned = false ∧
      (passes C (j + 1) (initialGuess C s guess).1).converged_ = false)
    (hfail : (iteration C (passes C k (initialGuess C s guess).1)).returned = true) :
    (passes C k (initialGuess C s guess).1).nr_iterations_ = (k : Int) ∧
    ∃ tr, computeTransformation C s guess =
      some ((iteration C (passes C k (initialGuess C s guess).1)).state, tr) := by
  obtain ⟨h0, hc0, hmax, _⟩ := initialGuess_facts C s guess
  obtain ⟨hnr, hmaxk⟩ := passes_nr C (initialGuess C s guess).1 k (fun j hj => (hcont j hj).1)
  rw [h0, zero_add] at hnr
  have hk : k ≤ s.max_iterations_.toNat := by
    rcases Nat.eq_zero_or_pos k with hz | hpos
    · omega
    · obtain ⟨j, rfl⟩ : ∃ j, k = j + 1 := ⟨k - 1, by omega⟩
      obtain ⟨hr, hc⟩ := hcont j (by omega)
      obtain ⟨_, h2, h3⟩ := iteration_not_returned C _ hr
      have hlt := h3 hc
      have hnr' : (iteration C (passes C j (initialGuess C s guess).1)).state.nr_iterations_ =
          ((j + 1 : Nat) : Int) := hnr
      rw [hnr', (passes_nr C (initialGuess C s guess).1 j
        (fun i hi => (hcont i (by omega)).1)).2, hmax] at hlt
      have := Int.toNat_of_nonneg (show (0 : Int) ≤ s.max_iterations_ by omega)
      omega
  refine ⟨hnr, ?_⟩
  obtain ⟨hck, trk, hloop⟩ := whileLoop_passes C (initialGuess C s guess).1 hc0 k
    (s.max_iterations_.toNat - k + 1) (initialGuess C s guess).2 hcont
  have e : s.max_iterations_.toNat + 1 = s.max_iterations_.toNat - k + 1 + k := by omega
  unfold computeTransformation
  simp only
  rw [e, hloop, whileLoop_returned C _ hck hfail]
  exact ⟨_, rfl⟩

theorem translationX_ne_one : translationX ≠ 1 := by
  intro h
  have h03 := congrFun (congrFun h 0) 3
  simp [translationX, Matrix.one_apply] at h03

/-- C8, as amended: every call of `computeTransformation` made without an initial guess (guess
the identity, also through the one-argument overload) in which a hard failure (a failed
neighbour search, or fewer than `min_number_correspondences_` correspondences) occurs during
the first pass returns with `converged_` false and with `final_transformation_` equal to the
value it held when the call was made; that is the identity matrix when it was the identity at
entry. -/
theorem C8_first_pass_failure_keeps_entry_value {Cloud : Type} (C : Collaborators Cloud)
    (s : ICP Cloud)
    (hfail : (∃ idx, idx < s.indices_size ∧ C.searchForNeighbors s.output idx = none) ∨
      (∃ ev src tgt, findCorrespondences C s = (ev, some (src, tgt)) ∧
        ((rejectOutliers C s.output src tgt).1.length : Int) < s.min_number_correspondences_)) :
    ∃ r tr, computeTransformation C s 1 = some (r, tr) ∧
      computeTransformation₁ C s = some (r, tr) ∧
      r.converged_ = false ∧
      r.nr_iterations_ = 0 ∧
      r.final_transformation_ = s.final_transformation_ ∧
      (s.final_transformation_ = 1 → r.final_transformation_ = 1) := by
  have hs0 : (initialGuess C s 1).1 = { s with nr_iterations_ := 0, converged_ := false } := by
    rw [initialGuess_identity]
  have hret : (iteration C (passes C 0 (initialGuess C s 1).1)).returned = true := by
    show (iteration C (initialGuess C s 1).1).returned = true
    rw [hs0]
    exact (iteration_returned_iff C _).mpr hfail
  obtain ⟨_, tr, h⟩ := computeTransformation_of_failure C s 1 0
    (fun j hj => absurd hj (Nat.not_lt_zero j)) hret
  have hret' : (iteration C (initialGuess C s 1).1).returned = true := hret
  obtain ⟨_, h2, _, h4, _, h6⟩ := iteration_returned C (initialGuess C s 1).1 hret'
  have hfin : (iteration C (initialGuess C s 1).1).state.final_transformation_ =
      s.final_transformation_ := by rw [h2, hs0]
  have hnr : (iteration C (initialGuess C s 1).1).state.nr_iterations_ = 0 := by
    rw [h4, hs0]
  exact ⟨_, tr, h, h, h6 (by rw [hs0]), hnr, hfin, fun h1 => hfin.trans h1⟩

/-- C8, witness: on one point whose search fails, with the three transformations the identity
at entry, the call returns the identity with `converged_` false. -/
theorem C8_first_pass_failure_keeps_entry_value_witness :
    ∃ r tr, computeTransformation noNeighbourCollaborators onePointICP 1 = some (r, tr) ∧
      r.converged_ = false ∧ r.final_transformation_ = 1 := by
  obtain ⟨r, tr, h, _, hc, _, hf, _⟩ :=
    C8_first_pass_failure_keeps_entry_value noNeighbourCollaborators onePointICP
      (Or.inl ⟨0, by simp [onePointICP], rfl⟩)
  exact ⟨r, tr, h, hc, by rw [hf]; rfl⟩

/-- C8, counterexample: a call without initial guess, entered with `final_transformation_`
holding a translation, whose first search fails: it returns with `converged_` false and
`final_transformation_` still that translation, not the identity. -/
theorem C8_counterexample :
    (∃ idx, idx < shiftedICP.indices_size ∧
      noNeighbourCollaborators.searchForNeighbors shiftedICP.output idx = none) ∧
    ∃ r tr, computeTransformation₁ noNeighbourCollaborators shiftedICP = some (r, tr) ∧
      r.converged_ = false ∧ r.final_transformation_ = translationX ∧
      r.final_transformation_ ≠ 1 := by
  refine ⟨⟨0, by simp [shiftedICP, onePointICP], rfl⟩, ?_⟩
  have h : computeTransformation₁ noNeighbourCollaborators shiftedICP =
      some ({ shiftedICP with nr_iterations_ := 0, converged_ := false,
                              previous_transformation_ := 1 },
        [Event.search 0 0 false]) := by
    simp [computeTransformation₁, computeTransformation, initialGuess, whileLoop, iteration,
      findCorrespondences, searchLoop, noNeighbourCollaborators, shiftedICP, onePointICP]
  exact ⟨_, _, h, rfl, rfl, translationX_ne_one⟩

theorem iteration_secondPassFailing :
    iteration secondPassFailingCollaborators
        (initialGuess secondPassFailingCollaborators onePointICP 1).1 =
      { state :=
          { onePointICP with
            nr_iterations_ := 1
            transformation_ := translationX
            final_transformation_ := translationX * 1
            output := 1 }
        returned := false
        events := [Event.search 0 0 true, Event.reject 0 [0] [7],
          Event.estimate 0 [0] [7] translationX, Event.transform 0 translationX] } := by
  have hsum : Matrix4f.sum (translationX - 1) = 1 := by
    simp [Matrix4f.sum, translationX, Fin.sum_univ_four, Matrix.one_apply]
    norm_num
  simp [initialGuess, iteration, findCorrespondences, searchLoop, resize, rejectOutliers,
    convergenceCheck, secondPassFailingCollaborators, onePointICP, hsum]

/-- C9: in every call of `computeTransformation` in which the first `k` passes reach the end
of the loop body without converging and a hard failure (a failed neighbour search, or fewer
than `min_number_correspondences_` correspondences) occurs during pass `k + 1`, the call
returns with `final_transformation_`, `transformation_`, `nr_iterations_` and the working
cloud exactly as they were at the end of pass `k` (for `k = 0`: after the initial-guess step),
with `nr_iterations_ = k` and `converged_` false. -/
theorem C9_failed_pass_commits_nothing {Cloud : Type} (C : Collaborators Cloud) (s : ICP Cloud)
    (guess : Matrix4f) (k : Nat)
    (hcont : ∀ j, j < k →
      (iteration C (passes C j (initialGuess C s guess).1)).returned = false ∧
      (passes C (j + 1) (initialGuess C s guess).1).converged_ = false)
    (hfail :
      (∃ idx, idx < (passes C k (initialGuess C s guess).1).indices_size ∧
        C.searchForNeighbors (passes C k (initialGuess C s guess).1).output idx = none) ∨
      (∃ ev src tgt,
        findCorrespondences C (passes C k (initialGuess C s guess).1) = (ev, some (src, tgt)) ∧
        ((rejectOutliers C (passes C k (initialGuess C s guess).1).output src tgt).1.length : Int)
          < (passes C k (initialGuess C s guess).1).min_number_correspondences_)) :
    ∃ r tr, computeTransformation C s guess = some (r, tr) ∧
      r.final_transformation_ = (passes C k (initialGuess C s guess).1).final_transformation_ ∧
      r.transformation_ = (passes C k (initialGuess C s guess).1).transformation_ ∧
      r.nr_iterations_ = (passes C k (initialGuess C s guess).1).nr_iterations_ ∧
      r.output = (passes C k (initialGuess C s guess).1).output ∧
      r.nr_iterations_ = (k : Int) ∧
      r.converged_ = false := by
  have hret := (iteration_returned_iff C _).mpr hfail
  obtain ⟨hnr, tr, h⟩ := computeTransformation_of_failure C s guess k hcont hret
  obtain ⟨hck, _⟩ := whileLoop_passes C (initialGuess C s guess).1
    (initialGuess_facts C s guess).2.1 k 0 [] hcont
  obtain ⟨_, h2, h3, h4, h5, h6⟩ := iteration_returned C _ hret
  exact ⟨_, tr, h, h2, h3, h4, h5, h4.trans hnr, h6 hck⟩

/-- C9, witness: with a search that succeeds on the untouched cloud and fails on the
transformed one, the call fails in its second pass and returns what the first pass left:
`nr_iterations_ = 1`, the first increment as `transformation_` and `final_transformation_`,
the cloud transformed once. -/
theorem C9_failed_pass_commits_nothing_witness :
    ∃ r tr, computeTransformation secondPassFailingCollaborators onePointICP 1 = some (r, tr) ∧
      r.nr_iterations_ = 1 ∧ r.transformation_ = translationX ∧
      r.final_transformation_ = translationX * 1 ∧ r.output = 1 ∧ r.converged_ = false := by
  have hp1 : passes secondPassFailingCollaborators 1
      (initialGuess secondPassFailingCollaborators onePointICP 1).1 =
      { onePointICP with
        nr_iterations_ := 1
        transformation_ := translationX
        final_transformation_ := translationX * 1
        output := 1 } := by
    show (iteration secondPassFailingCollaborators
      (initialGuess secondPassFailingCollaborators onePointICP 1).1).state = _
    rw [iteration_secondPassFailing]
  obtain ⟨r, tr, h, h1, h2, h3, h4, h5, h6⟩ :=
    C9_failed_pass_commits_nothing secondPassFailingCollaborators onePointICP 1 1
      (by
        intro j hj
        obtain rfl : j = 0 := by omega
        refine ⟨?_, ?_⟩
        · show (iteration secondPassFailingCollaborators
            (initialGuess secondPassFailingCollaborators onePointICP 1).1).returned = false
          rw [iteration_secondPassFailing]
        · rw [hp1]; rfl)
      (Or.inl ⟨0, by rw [hp1]; simp [onePointICP], by
        rw [hp1]; simp [secondPassFailingCollaborators]⟩)
  rw [hp1] at h1 h2 h4
  exact ⟨r, tr, h, by rw [h5]; rfl, h2, h1, h4, h6⟩

/-! ## The initial guess (C10) -/

theorem findCorrespondences_first_event {Cloud : Type} (C : Collaborators Cloud)
    (s : ICP Cloud) (hn : 0 < s.indices_size) :
    ∃ b rest, (findCorrespondences C s).1 = Event.search s.output 0 b :: rest := by
  obtain ⟨n, hn'⟩ : ∃ n, s.indices_size = n + 1 := ⟨s.indices_size - 1, by omega⟩
  have h1 : (findCorrespondences C s).1 =
      (searchLoop C s.output (s.corr_dist_threshold_ * s.corr_dist_threshold_) s.indices_size 0
        { cnt := 0
          source_indices := List.replicate s.indices_size 0
          target_indices := List.replicate s.indices_size 0 }).1 := by
    unfold findCorrespondences
    simp only
    split <;> rfl
  rw [h1, hn']
  rcases hq : C.searchForNeighbors s.output 0 with _ | ⟨nn, d⟩
  · exact ⟨false, [], by simp [searchLoop, hq]⟩
  · exact ⟨true, _, by simp only [searchLoop, hq]; rfl⟩

/-- With a non-empty index subset, a pass begins with the search for position `0` in the
working cloud it was entered with. -/
theorem iteration_first_event {Cloud : Type} (C : Collaborators Cloud) (s : ICP Cloud)
    (hn : 0 < s.indices_size) :
    ∃ b rest, (iteration C s).events = Event.search s.output 0 b :: rest := by
  obtain ⟨b, rest, hfirst⟩ := findCorrespondences_first_event C s hn
  rcases iteration_cases C s with ⟨ev, hfc, hi⟩ | ⟨ev, src, tgt, hfc, _, hi⟩ |
    ⟨ev, src, tgt, T, hfc, _, _, hi⟩
  · rw [hfc] at hfirst
    exact ⟨b, rest, by rw [hi]; exact hfirst⟩
  · rw [hfc] at hfirst
    simp only at hfirst
    exact ⟨b, _, by rw [hi, hfirst]; rfl⟩
  · rw [hfc] at hfirst
    simp only at hfirst
    exact ⟨b, _, by rw [hi, hfirst]; rfl⟩

/-- The trace of a loop entered with `converged_` false continues with the events of its
first pass. -/
theorem whileLoop_trace_first {Cloud : Type} (C : Collaborators Cloud) (fuel : Nat)
    (s : ICP Cloud) (tr : List (Event Cloud)) (r : ICP Cloud) (tr' : List (Event Cloud))
    (h : whileLoop C fuel s tr = some (r, tr')) (hs : s.converged_ = false) :
    ∃ rest, tr' = tr ++ (iteration C s).events ++ rest := by
  cases fuel with
  | zero => rw [whileLoop_zero C s tr hs] at h; cases h
  | succ n =>
    rw [whileLoop_succ C n s tr hs] at h
    by_cases hr : (iteration C s).returned = true
    · simp only [hr, if_true, Option.some.injEq, Prod.mk.injEq] at h
      exact ⟨[], by rw [← h.2]; simp⟩
    · have hr' : (iteration C s).returned = false := by simpa using hr
      simp only [hr', Bool.false_eq_true, if_false] at h
      obtain ⟨ev, e1, _, _⟩ := whileLoop_final C _ _ _ _ _ h
      exact ⟨ev, e1⟩

/-- C10: in every call of `computeTransformation` with a guess different from the identity,
whatever `final_transformation_` held before, after the initial-guess step
`final_transformation_` is the guess and the working cloud is the input cloud transformed by
the guess, and the call does nothing but that one transformation before its first neighbour
search, which is made in the transformed cloud; with the identity as guess the call does
nothing before its first search, which is made in the input cloud. -/
theorem C10_guess_applied_before_first_search {Cloud : Type} (C : Collaborators Cloud)
    (s : ICP Cloud) (guess : Matrix4f) :
    (guess ≠ 1 →
      (initialGuess C s guess).1.final_transformation_ = guess ∧
      (initialGuess C s guess).1.output = C.transformPointCloud s.output guess ∧
      (initialGuess C s guess).2 = [Event.transform s.output guess]) ∧
    (guess = 1 →
      (initialGuess C s guess).1.final_transformation_ = s.final_transformation_ ∧
      (initialGuess C s guess).1.output = s.output ∧
      (initialGuess C s guess).2 = []) ∧
    ∃ r tr, computeTransformation C s guess = some (r, tr) ∧
      (0 < s.indices_size → ∃ b rest,
        tr = (initialGuess C s guess).2 ++
          Event.search (initialGuess C s guess).1.output 0 b :: rest) := by
  refine ⟨fun hg => by simp [initialGuess, hg], fun hg => by simp [initialGuess, hg], ?_⟩
  obtain ⟨⟨r, tr⟩, h⟩ := computeTransformation_total C s guess
  refine ⟨r, tr, h, fun hn => ?_⟩
  have hn' : 0 < (initialGuess C s guess).1.indices_size := by
    unfold initialGuess; split <;> exact hn
  obtain ⟨b, rest, hfirst⟩ := iteration_first_event C (initialGuess C s guess).1 hn'
  unfold computeTransformation at h
  obtain ⟨rest', hrest⟩ := whileLoop_trace_first C _ _ _ _ _ h
    (initialGuess_facts C s guess).2.1
  exact ⟨b, rest ++ rest', by rw [hrest, hfirst]; simp⟩

/-- C10, witness: called with a translation as guess while `final_transformation_` holds the
identity, the call sets `final_transformation_` to the translation, transforms the cloud
once (from `0` to `1`) and makes its first search in the transformed cloud. -/
theorem C10_guess_applied_before_first_search_witness :
    (initialGuess rotatingCollaborators onePointICP translationX).1.final_transformation_ =
      translationX ∧
    (initialGuess rotatingCollaborators onePointICP translationX).1.output = 1 ∧
    ∃ r tr b rest,
      computeTransformation rotatingCollaborators onePointICP translationX = some (r, tr) ∧
      tr = Event.transform 0 translationX :: Event.search 1 0 b :: rest := by
  obtain ⟨h1, _, r, tr, h, h3⟩ :=
    C10_guess_applied_before_first_search rotatingCollaborators onePointICP translationX
  obtain ⟨hf, ho, he⟩ := h1 translationX_ne_one
  obtain ⟨b, rest, htr⟩ := h3 (by simp [onePointICP])
  rw [he, ho] at htr
  exact ⟨hf, ho, r, tr, b, rest, h, htr⟩

/-! ## The passes of a call (C11, C12) -/

theorem passes_succ_front {Cloud : Type} (C : Collaborators Cloud) (s : ICP Cloud) :
    ∀ k, passes C (k + 1) s = passes C k (iteration C s).state := by
  intro k
  induction k with
  | zero => rfl
  | succ k ih =>
    show (iteration C (passes C (k + 1) s)).state = (iteration C (passes C k _)).state
    rw [ih]

/-- What a call of the loop does: it runs some number `m` of passes, at most `fuel`; each is
entered with `converged_` false, only the last may return, and the loop ends because
`converged_` is true or because the last pass returned. -/
theorem whileLoop_run {Cloud : Type} (C : Collaborators Cloud) :
    ∀ (fuel : Nat) (s : ICP Cloud) (tr : List (Event Cloud)) (r : ICP Cloud)
      (tr' : List (Event Cloud)), whileLoop C fuel s tr = some (r, tr') →
      ∃ m, m ≤ fuel ∧ r = passes C m s ∧ tr' = tr ++ traceOfPasses C m s ∧
        (∀ j, j < m → (passes C j s).converged_ = false) ∧
        (∀ j, j + 1 < m → (iteration C (passes C j s)).returned = false) ∧
        (r.converged_ = true ∨
          ∃ j, j + 1 = m ∧ (iteration C (passes C j s)).returned = true) := by
  intro fuel
  induction fuel with
  | zero =>
    intro s tr r tr' h
    by_cases hc : s.converged_ = true
    · rw [whileLoop_converged C 0 s tr hc] at h
      cases h
      exact ⟨0, le_refl _, rfl, by simp [traceOfPasses], fun j hj => absurd hj (by omega),
        fun j hj => absurd hj (by omega), Or.inl hc⟩
    · rw [whileLoop_zero C s tr (by simpa using hc)] at h; cases h
  | succ n ih =>
    intro s tr r tr' h
    by_cases hc : s.converged_ = true
    · rw [whileLoop_converged C _ s tr hc] at h
      cases h
      exact ⟨0, Nat.zero_le _, rfl, by simp [traceOfPasses], fun j hj => absurd hj (by omega),
        fun j hj => absurd hj (by omega), Or.inl hc⟩
    · have hc' : s.converged_ = false := by simpa using hc
      rw [whileLoop_succ C n s tr hc'] at h
      by_cases hr : (iteration C s).returned = true
      · simp only [hr, if_true, Option.some.injEq, Prod.mk.injEq] at h
        refine ⟨1, by omega, h.1.symm, by rw [← h.2]; simp [traceOfPasses], ?_, ?_,
          Or.inr ⟨0, rfl, hr⟩⟩
        · intro j hj
          obtain rfl : j = 0 := by omega
          exact hc'
        · intro j hj; omega
      · have hr' : (iteration C s).returned = false := by simpa using hr
        simp only [hr', Bool.false_eq_true, if_false] at h
        obtain ⟨m, hm, e1, e2, e3, e4, e5⟩ := ih _ _ _ _ h
        refine ⟨m + 1, by omega, by rw [e1, passes_succ_front], ?_, ?_, ?_, ?_⟩
        · rw [e2]; simp [traceOfPasses]
        · intro j hj
          rcases Nat.eq_zero_or_pos j with hz | hpos
          · subst hz; exact hc'
          · obtain ⟨i, rfl⟩ : ∃ i, j = i + 1 := ⟨j - 1, by omega⟩
            rw [passes_succ_front]
            exact e3 i (by omega)
        · intro j hj
          rcases Nat.eq_zero_or_pos j with hz | hpos
          · subst hz; exact hr'
          · obtain ⟨i, rfl⟩ : ∃ i, j = i + 1 := ⟨j - 1, by omega⟩
            rw [passes_succ_front]
            exact e4 i (by omega)
        · rcases e5 with e5 | ⟨j, hj, hjr⟩
          · exact Or.inl e5
          · exact Or.inr ⟨j + 1, by omega, by rw [passes_succ_front]; exact hjr⟩

/-- The loop ends within `fuel` passes as soon as `fuel` is at least one and at least
`max_iterations_ - nr_iterations_`. -/
theorem whileLoop_total_le {Cloud : Type} (C : Collaborators Cloud) :
    ∀ (fuel : Nat) (s : ICP Cloud) (tr : List (Event Cloud)),
      (s.converged_ = true ∨ (s.max_iterations_ - s.nr_iterations_ ≤ (fuel : Int) ∧ 1 ≤ fuel)) →
      ∃ r, whileLoop C fuel s tr = some r := by
  intro fuel
  induction fuel with
  | zero =>
    intro s tr h
    rcases h with h | ⟨_, h⟩
    · exact ⟨_, whileLoop_converged C 0 s tr h⟩
    · omega
  | succ n ih =>
    intro s tr h
    by_cases hc : s.converged_ = true
    · exact ⟨_, whileLoop_converged C _ s tr hc⟩
    · have hc' : s.converged_ = false := by simpa using hc
      have hfuel : s.max_iterations_ - s.nr_iterations_ ≤ ((n + 1 : Nat) : Int) := by
        rcases h with h | ⟨h, _⟩
        · exact absurd h hc
        · exact h
      rw [whileLoop_succ C n s tr hc']
      by_cases hr : (iteration C s).returned = true
      · simp only [hr, if_true]; exact ⟨_, rfl⟩
      · have hr' : (iteration C s).returned = false := by simpa using hr
        simp only [hr', Bool.false_eq_true, if_false]
        obtain ⟨h1, h2, h3⟩ := iteration_not_returned C s hr'
        apply ih
        by_cases hc2 : (iteration C s).state.converged_ = true
        · exact Or.inl hc2
        · have hc2' : (iteration C s).state.converged_ = false := by simpa using hc2
          have := h3 hc2'
          refine Or.inr ⟨?_, ?_⟩
          · rw [h2, h1]; push_cast at hfuel; omega
          · rw [h1] at this; push_cast at hfuel; omega

/-- More fuel does not change the result of a loop that ends. -/
theorem whileLoop_mono {Cloud : Type} (C : Collaborators Cloud) :
    ∀ (fuel : Nat) (s : ICP Cloud) (tr : List (Event Cloud)) (r : ICP Cloud × List (Event Cloud))
      (extra : Nat), whileLoop C fuel s tr = some r → whileLoop C (fuel + extra) s tr = some r := by
  intro fuel
  induction fuel with
  | zero =>
    intro s tr r extra h
    by_cases hc : s.converged_ = true
    · rw [whileLoop_converged C 0 s tr hc] at h
      rw [whileLoop_converged C _ s tr hc, h]
    · rw [whileLoop_zero C s tr (by simpa using hc)] at h; cases h
  | succ n ih =>
    intro s tr r extra h
    by_cases hc : s.converged_ = true
    · rw [whileLoop_converged C _ s tr hc] at h
      rw [whileLoop_converged C _ s tr hc, h]
    · have hc' : s.converged_ = false := by simpa using hc
      have e : n + 1 + extra = (n + extra) + 1 := by omega
      rw [whileLoop_succ C n s tr hc'] at h
      rw [e, whileLoop_succ C (n + extra) s tr hc']
      by_cases hr : (iteration C s).returned = true
      · simp only [hr, if_true] at h ⊢; exact h
      · have hr' : (iteration C s).returned = false := by simpa using hr
        simp only [hr', Bool.false_eq_true, if_false] at h ⊢
        exact ih _ _ _ extra h

/-- A pass adds at most one to `nr_iterations_` and leaves `max_iterations_` alone. -/
theorem iteration_nr_le {Cloud : Type} (C : Collaborators Cloud) (s : ICP Cloud) :
    (iteration C s).state.nr_iterations_ ≤ s.nr_iterations_ + 1 ∧
    (iteration C s).state.max_iterations_ = s.max_iterations_ ∧
    (iteration C s).state.indices_size = s.indices_size := by
  rcases iteration_cases C s with ⟨ev, _, hi⟩ | ⟨ev, src, tgt, _, _, hi⟩ |
    ⟨ev, src, tgt, T, _, _, _, hi⟩
  · rw [hi]; exact ⟨by simp [afterSearchFailure], rfl, rfl⟩
  · rw [hi]; exact ⟨by simp [afterTooFew], rfl, rfl⟩
  · rw [hi]; exact ⟨by simp [afterEstimate], rfl, rfl⟩

theorem passes_nr_le {Cloud : Type} (C : Collaborators Cloud) (s : ICP Cloud) :
    ∀ k, (passes C k s).nr_iterations_ ≤ s.nr_iterations_ + (k : Int) ∧
      (passes C k s).max_iterations_ = s.max_iterations_ ∧
      (passes C k s).indices_size = s.indices_size := by
  intro k
  induction k with
  | zero => exact ⟨by simp [passes], rfl, rfl⟩
  | succ k ih =>
    obtain ⟨h1, h2, h3⟩ := iteration_nr_le C (passes C k s)
    refine ⟨?_, ?_, ?_⟩
    · show (iteration C (passes C k s)).state.nr_iterations_ ≤ _
      push_cast; omega
    · show (iteration C (passes C k s)).state.max_iterations_ = _
      rw [h2, ih.2.1]
    · show (iteration C (passes C k s)).state.indices_size = _
      rw [h3, ih.2.2]

/-- C11: for every configuration with `max_iterations_ >= 1`, every guess and every behaviour
of the collaborators, `computeTransformation` returns, its loop ends within `max_iterations_`
passes (given only that many it still ends, with the same result; the number `m` of passes it
runs is at most `max_iterations_`), and `nr_iterations_ <= max_iterations_` on return. -/
theorem C11_terminates_within_max_iterations {Cloud : Type} (C : Collaborators Cloud)
    (s : ICP Cloud) (guess : Matrix4f) (hmax : 1 ≤ s.max_iterations_) :
    ∃ r tr, ∃ m : Nat, computeTransformation C s guess = some (r, tr) ∧
      whileLoop C s.max_iterations_.toNat (initialGuess C s guess).1 (initialGuess C s guess).2 =
        some (r, tr) ∧
      (m : Int) ≤ s.max_iterations_ ∧
      r = passes C m (initialGuess C s guess).1 ∧
      tr = (initialGuess C s guess).2 ++ traceOfPasses C m (initialGuess C s guess).1 ∧
      r.nr_iterations_ ≤ s.max_iterations_ := by
  obtain ⟨h0, hc0, hm, _⟩ := initialGuess_facts C s guess
  have htoNat : ((s.max_iterations_.toNat : Nat) : Int) = s.max_iterations_ :=
    Int.toNat_of_nonneg (by omega)
  obtain ⟨⟨r, tr⟩, h⟩ := whileLoop_total_le C s.max_iterations_.toNat (initialGuess C s guess).1
    (initialGuess C s guess).2 (Or.inr ⟨by rw [hm, h0, htoNat]; omega, by omega⟩)
  obtain ⟨m, hle, e1, e2, _, _, _⟩ := whileLoop_run C _ _ _ _ _ h
  have hnr := (passes_nr_le C (initialGuess C s guess).1 m).1
  rw [h0] at hnr
  refine ⟨r, tr, m, whileLoop_mono C _ _ _ _ 1 h, h, by omega, e1, e2, ?_⟩
  rw [e1]
  omega

/-- C11, witness: with `max_iterations_ = 2` the two-step call returns with
`nr_iterations_` at most `2`. -/
theorem C11_terminates_within_max_iterations_witness :
    1 ≤ twoStepICP.max_iterations_ ∧
    ∃ r tr, computeTransformation twoStepCollaborators twoStepICP 1 = some (r, tr) ∧
      r.nr_iterations_ ≤ 2 := by
  have hmax : 1 ≤ twoStepICP.max_iterations_ := by simp [twoStepICP]
  obtain ⟨r, tr, m, h, _, _, _, _, hnr⟩ :=
    C11_terminates_within_max_iterations twoStepCollaborators twoStepICP 1 hmax
  exact ⟨hmax, r, tr, h, hnr⟩

theorem findCorrespondences_identical :
    findCorrespondences identicalCollaborators zeroIterationICP =
      ([Event.search 0 0 true, Event.search 0 1 true, Event.search 0 2 true],
        some ([0, 1, 2], [0, 1, 2])) := by
  simp [findCorrespondences, searchLoop, identicalCollaborators, zeroIterationICP, threePointICP,
    onePointICP, resize]

/-- C12: a call of `computeTransformation` with `max_iterations_ = 0`, the identity as guess and
as `final_transformation_` at entry, in whose first pass every neighbour search succeeds,
enough correspondences are left and the estimator returns the identity, runs exactly one pass
and returns with `converged_ = true`, `nr_iterations_ = 1` and `final_transformation_` the
identity. -/
theorem C12_zero_iteration_allowance {Cloud : Type} (C : Collaborators Cloud) (s : ICP Cloud)
    (ev : List (Event Cloud)) (src tgt : List Int)
    (hmax : s.max_iterations_ = 0) (hfinal : s.final_transformation_ = 1)
    (hsearch : findCorrespondences C s = (ev, some (src, tgt)))
    (henough : ¬ ((rejectOutliers C s.output src tgt).1.length : Int) <
      s.min_number_correspondences_)
    (hid : C.rigid_transformation_estimation_ s.output (rejectOutliers C s.output src tgt).1
      (rejectOutliers C s.output src tgt).2 s.transformation_ = 1) :
    ∃ r tr, computeTransformation C s 1 = some (r, tr) ∧
      whileLoop C 1 (initialGuess C s 1).1 (initialGuess C s 1).2 = some (r, tr) ∧
      r = passes C 1 (initialGuess C s 1).1 ∧
      tr = (iteration C (initialGuess C s 1).1).events ∧
      r.converged_ = true ∧
      r.nr_iterations_ = 1 ∧
      r.final_transformation_ = 1 := by
  have hs0 : initialGuess C s 1 = ({ s with nr_iterations_ := 0, converged_ := false }, []) :=
    initialGuess_identity C s
  have hfc : findCorrespondences C { s with nr_iterations_ := 0, converged_ := false } =
      (ev, some (src, tgt)) := hsearch
  have hi := iteration_of_enough C { s with nr_iterations_ := 0, converged_ := false }
    ev src tgt hfc henough
  simp only at hi
  rw [hid] at hi
  have hconv : convergenceCheck ((0 : Int) + 1) s.max_iterations_ 1 s.transformation_
      s.transformation_epsilon_ = true := by
    simp [convergenceCheck, hmax]
  rw [hconv] at hi
  have hconv1 : convergenceCheck 1 s.max_iterations_ 1 s.transformation_
      s.transformation_epsilon_ = true := by
    simp [convergenceCheck, hmax]
  have hloop : whileLoop C 1 (initialGuess C s 1).1 (initialGuess C s 1).2 =
      some ((iteration C (initialGuess C s 1).1).state,
        (iteration C (initialGuess C s 1).1).events) := by
    rw [hs0]
    simp only
    rw [whileLoop_succ C 0 _ _ rfl, hi]
    simp only [Bool.false_eq_true, if_false, List.nil_append]
    rw [whileLoop_converged C 0 _ _ (by simp [afterEstimate, hconv1])]
  refine ⟨_, _, ?_, hloop, rfl, rfl, ?_, ?_, ?_⟩
  · unfold computeTransformation
    simp only [hmax, Int.toNat_zero, Nat.zero_add]
    exact hloop
  · rw [hs0]; simp only; rw [hi]; simp [afterEstimate, hconv1]
  · rw [hs0]; simp only; rw [hi]; simp [afterEstimate]
  · rw [hs0]; simp only; rw [hi]; simp [afterEstimate, hfinal]

/-- C12, witness: three points registered against themselves with `max_iterations_ = 0`
converge in the first pass with the identity. -/
theorem C12_zero_iteration_allowance_witness :
    ∃ r tr, computeTransformation identicalCollaborators zeroIterationICP 1 = some (r, tr) ∧
      r.converged_ = true ∧ r.nr_iterations_ = 1 ∧ r.final_transformation_ = 1 := by
  obtain ⟨r, tr, h, _, _, _, hc, hn, hf⟩ :=
    C12_zero_iteration_allowance identicalCollaborators zeroIterationICP _ _ _ rfl rfl
      findCorrespondences_identical
      (by simp [rejectOutliers, identicalCollaborators, zeroIterationICP, threePointICP,
        onePointICP])
      rfl
  exact ⟨r, tr, h, hc, hn, hf⟩

/-! ## The surface reconstruction skeleton (C13) -/

/-- C13: for every object and output mesh, if `initCompute` fails, or if `check_tree_` is set
and no `tree_` was given, `reconstruct` returns a mesh with `cloud.width = cloud.height = 0`,
empty `cloud.data` and empty `polygons`, whose header is the input header, and does not call
`performReconstruction`; otherwise it calls `performReconstruction` exactly once, on a mesh
whose `polygons` are empty (and whose header is the input header), and returns what that call
leaves. -/
theorem C13_reconstruct_validates_then_delegates {Header Rest Polygon : Type}
    (R : SurfaceReconstruction Header Rest Polygon) (output : PolygonMesh Header Rest Polygon) :
    ((R.initCompute = false ∨ (R.check_tree_ = true ∧ R.tree_ = false)) →
      (reconstruct R output).1.cloud.width = 0 ∧
      (reconstruct R output).1.cloud.height = 0 ∧
      (reconstruct R output).1.cloud.data = [] ∧
      (reconstruct R output).1.polygons = [] ∧
      (reconstruct R output).1.header = R.input_header ∧
      (reconstruct R output).2.countP ReconstructEvent.isPerformReconstruction = 0) ∧
    (¬ (R.initCompute = false ∨ (R.check_tree_ = true ∧ R.tree_ = false)) →
      ∃ arg, (reconstruct R output).2.filter ReconstructEvent.isPerformReconstruction =
          [ReconstructEvent.performReconstruction arg] ∧
        arg.polygons = [] ∧
        arg.header = R.input_header ∧
        (reconstruct R output).1 = R.performReconstruction arg) := by
  constructor
  · intro h
    by_cases hi : R.initCompute = false
    · simp [reconstruct, hi, emptied, ReconstructEvent.isPerformReconstruction]
    · have hi' : R.initCompute = true := by simpa using hi
      rcases h with h | ⟨h1, h2⟩
      · exact absurd h hi
      · simp [reconstruct, hi', h1, h2, emptied, ReconstructEvent.isPerformReconstruction]
  · intro h
    push_neg at h
    have hi : R.initCompute = true := by simpa using h.1
    by_cases hc : R.check_tree_ = true
    · have ht : R.tree_ = true := by simpa using h.2 hc
      exact ⟨{ header := R.input_header, cloud := R.toROSMsg output.cloud, polygons := [] },
        by simp [reconstruct, hi, hc, ht, ReconstructEvent.isPerformReconstruction],
        rfl, rfl, by simp [reconstruct, hi, hc, ht]⟩
    · have hc' : R.check_tree_ = false := by simpa using hc
      exact ⟨{ header := R.input_header, cloud := R.toROSMsg output.cloud, polygons := [] },
        by simp [reconstruct, hi, hc', ReconstructEvent.isPerformReconstruction],
        rfl, rfl, by simp [reconstruct, hi, hc']⟩

/-- C13, witness: on a used mesh, the reconstruction whose `initCompute` fails and the one
without the tree it asks for return the emptied mesh with the input header; the one with
its tree hands `performReconstruction` a mesh without polygons. -/
theorem C13_reconstruct_validates_then_delegates_witness :
    (reconstruct (addingReconstruction false true true) usedMesh).1.polygons = [] ∧
    (reconstruct (addingReconstruction false true true) usedMesh).1.header = 42 ∧
    (reconstruct (addingReconstruction true true false) usedMesh).1.cloud.data = [] ∧
    (reconstruct (addingReconstruction true true true) usedMesh).1.polygons = [7] := by
  have h1 := (C13_reconstruct_validates_then_delegates (addingReconstruction false true true)
    usedMesh).1 (Or.inl rfl)
  have h2 := (C13_reconstruct_validates_then_delegates (addingReconstruction true true false)
    usedMesh).1 (Or.inr ⟨rfl, rfl⟩)
  obtain ⟨arg, _, harg, _, hres⟩ :=
    (C13_reconstruct_validates_then_delegates (addingReconstruction true true true)
      usedMesh).2 (by simp [addingReconstruction])
  refine ⟨h1.2.2.2.1, h1.2.2.2.2.1, h2.2.2.1, ?_⟩
  rw [hres]
  simp [addingReconstruction, harg]

/-! ## The field helpers (C14, C15, C16) -/

/-- C14 (the code where the property fails): for size `1` or `2` and type `F` the `switch` of
`getFieldType (size, type)` runs on through the cases without `break` and returns `FLOAT32`,
whose size is `4`; for size `8` it returns `FLOAT64` whatever the type, also for `I`, and
the type character of `FLOAT64` is `F`. With the constants of `sensor_msgs/PointField.h`
these results are `7` and `8`, not `-1`. -/
theorem C14_getFieldType_runs_through_cases (pf : PointField) :
    getFieldType pf 1 'F' = pf.FLOAT32 ∧
    getFieldType pf 2 'f' = pf.FLOAT32 ∧
    getFieldSize pf pf.FLOAT32 = 4 ∧
    getFieldType pf 8 'I' = pf.FLOAT64 ∧
    getFieldType₁ pf pf.FLOAT64 = 'F' ∧
    getFieldType rosPointField 1 'F' = 7 ∧
    getFieldSize rosPointField (getFieldType rosPointField 1 'F') = 4 ∧
    getFieldType rosPointField 8 'I' = 8 ∧
    getFieldType₁ rosPointField (getFieldType rosPointField 8 'I') = 'F' := by
  have hd := pf.distinct
  simp only [List.nodup_cons, List.mem_cons, List.mem_singleton, not_or, List.not_mem_nil,
    not_false_eq_true, List.nodup_nil, and_true] at hd
  obtain ⟨⟨h12, h13, h14, h15, h16, h17, h18⟩, ⟨h23, h24, h25, h26, h27, h28⟩,
    ⟨h34, h35, h36, h37, h38⟩, ⟨h45, h46, h47, h48⟩, ⟨h56, h57, h58⟩, ⟨h67, h68⟩, h78⟩ := hd
  have hF : 'F'.toUpper = 'F' := by decide
  have hf : 'f'.toUpper = 'F' := by decide
  have hI : 'I'.toUpper = 'I' := by decide
  refine ⟨?_, ?_, ?_, ?_, ?_, by decide, by decide, by decide, by decide⟩
  · simp [getFieldType, getFieldType.case1, getFieldType.case2, getFieldType.case4, hF]
  · simp [getFieldType, getFieldType.case2, getFieldType.case4, hf]
  · simp [getFieldSize, Ne.symm h17, Ne.symm h27, Ne.symm h37, Ne.symm h47]
  · simp [getFieldType, getFieldType.case8]
  · simp [getFieldType₁, Ne.symm h18, Ne.symm h38, Ne.symm h58, Ne.symm h28, Ne.symm h48,
      Ne.symm h68]

theorem swap_two {α : Type} (a b : α) : io.swapByte 2 [a, b] = some [b, a] := rfl

theorem swap_four {α : Type} (a b c d : α) :
    io.swapByte 4 [a, b, c, d] = some [d, c, b, a] := rfl

theorem swap_eight {α : Type} (a b c d e f g h : α) :
    io.swapByte 8 [a, b, c, d, e, f, g, h] = some [h, g, f, e, d, c, b, a] := rfl

/-- On an array of `N` bytes, for `N` one of `1, 2, 4, 8`, `swapByte<N>` stays inside the
array and leaves it reversed. -/
theorem swapByte_eq_reverse {α : Type} (N : Nat) (bytes : List α)
    (hN : N = 1 ∨ N = 2 ∨ N = 4 ∨ N = 8) (hlen : bytes.length = N) :
    io.swapByte N bytes = some bytes.reverse := by
  rcases hN with rfl | rfl | rfl | rfl
  · match bytes, hlen with
    | [a], _ => rfl
  · match bytes, hlen with
    | [a, b], _ => exact swap_two a b
  · match bytes, hlen with
    | [a, b, c, d], _ => exact swap_four a b c d
  · match bytes, hlen with
    | [a, b, c, d, e, f, g, h], _ => exact swap_eight a b c d e f g h

/-- C15: for every `N` in `1, 2, 4, 8` and every array of `N` bytes, `swapByte<N>` accesses
only positions of the array and leaves an array `b'` of `N` bytes with
`b'[i] = b[N - 1 - i]` for all `i < N`: the array reversed, a permutation of the bytes. -/
theorem C15_swapByte_reverses {α : Type} (N : Nat) (bytes : List α)
    (hN : N = 1 ∨ N = 2 ∨ N = 4 ∨ N = 8) (hlen : bytes.length = N) :
    ∃ swapped, io.swapByte N bytes = some swapped ∧
      swapped.length = N ∧
      (∀ i, i < N → swapped[i]? = bytes[N - 1 - i]?) ∧
      swapped = bytes.reverse ∧
      swapped.Perm bytes := by
  refine ⟨bytes.reverse, swapByte_eq_reverse N bytes hN hlen, by simp [hlen], ?_, rfl,
    List.reverse_perm bytes⟩
  intro i hi
  rw [List.getElem?_reverse (by omega), hlen]

/-- C15, witness: the four bytes `1, 2, 3, 4` swapped are `4, 3, 2, 1`. -/
theorem C15_swapByte_reverses_witness :
    io.swapByte 4 [(1 : Nat), 2, 3, 4] = some [4, 3, 2, 1] := by
  obtain ⟨swapped, h, _, _, hrev, _⟩ :=
    C15_swapByte_reverses 4 [(1 : Nat), 2, 3, 4] (Or.inr (Or.inr (Or.inl rfl))) rfl
  rw [h, hrev]
  rfl

/-- The size and the type character of each of the eight constants. -/
theorem fieldSize_fieldType_of_constants (pf : PointField) :
    (getFieldSize pf pf.INT8 = 1 ∧ getFieldType₁ pf pf.INT8 = 'I') ∧
    (getFieldSize pf pf.UINT8 = 1 ∧ getFieldType₁ pf pf.UINT8 = 'U') ∧
    (getFieldSize pf pf.INT16 = 2 ∧ getFieldType₁ pf pf.INT16 = 'I') ∧
    (getFieldSize pf pf.UINT16 = 2 ∧ getFieldType₁ pf pf.UINT16 = 'U') ∧
    (getFieldSize pf pf.INT32 = 4 ∧ getFieldType₁ pf pf.INT32 = 'I') ∧
    (getFieldSize pf pf.UINT32 = 4 ∧ getFieldType₁ pf pf.UINT32 = 'U') ∧
    (getFieldSize pf pf.FLOAT32 = 4 ∧ getFieldType₁ pf pf.FLOAT32 = 'F') ∧
    (getFieldSize pf pf.FLOAT64 = 8 ∧ getFieldType₁ pf pf.FLOAT64 = 'F') := by
  have hd := pf.distinct
  simp only [List.nodup_cons, List.mem_cons, List.mem_singleton, not_or, List.not_mem_nil,
    not_false_eq_true, List.nodup_nil, and_true] at hd
  obtain ⟨⟨d12, d13, d14, d15, d16, d17, d18⟩, ⟨d23, d24, d25, d26, d27, d28⟩,
    ⟨d34, d35, d36, d37, d38⟩, ⟨d45, d46, d47, d48⟩, ⟨d56, d57, d58⟩, ⟨d67, d68⟩, d78⟩ := hd
  simp [getFieldSize, getFieldType₁, d12, d13, d14, d15, d16, d17, d18, d23, d24, d25, d26,
    d27, d28, d34, d35, d36, d37, d38, d45, d46, d47, d48, d56, d57, d58, d67, d68, d78,
    Ne.symm d12, Ne.symm d13, Ne.symm d14, Ne.symm d15, Ne.symm d16, Ne.symm d17, Ne.symm d18,
    Ne.symm d23, Ne.symm d24, Ne.symm d25, Ne.symm d26, Ne.symm d27, Ne.symm d28, Ne.symm d34,
    Ne.symm d35, Ne.symm d36, Ne.symm d37, Ne.symm d38, Ne.symm d45, Ne.symm d46, Ne.symm d47,
    Ne.symm d48, Ne.symm d56, Ne.symm d57, Ne.symm d58, Ne.symm d67, Ne.symm d68, Ne.symm d78]

/-- Where `getFieldType (size, type)` does what its comment says: for a type among `I`, `U`,
`F` (in either case), apart from type `F` with size `1` or `2` and size `8` with a type other
than `F`, a result other than `-1` has the size and the type character asked for. -/
theorem getFieldType_sound (pf : PointField) (size : Int) (type : Char)
    (hU : type.toUpper = 'I' ∨ type.toUpper = 'U' ∨ type.toUpper = 'F')
    (h12 : ¬ ((size = 1 ∨ size = 2) ∧ type.toUpper = 'F'))
    (h8 : ¬ (size = 8 ∧ type.toUpper ≠ 'F'))
    (ht : getFieldType pf size type ≠ -1) :
    getFieldSize pf (getFieldType pf size type) = size ∧
    getFieldType₁ pf (getFieldType pf size type) = type.toUpper := by
  obtain ⟨c1, c2, c3, c4, c5, c6, c7, c8⟩ := fieldSize_fieldType_of_constants pf
  have hUI : ('U' : Char) ≠ 'I' := by decide
  have hFI : ('F' : Char) ≠ 'I' := by decide
  have hFU : ('F' : Char) ≠ 'U' := by decide
  by_cases s1 : size = 1
  · subst s1
    rcases hU with h | h | h
    · have e : getFieldType pf 1 type = pf.INT8 := by simp [getFieldType, getFieldType.case1, h]
      rw [e, h]; exact c1
    · have e : getFieldType pf 1 type = pf.UINT8 := by
        simp [getFieldType, getFieldType.case1, h, hUI]
      rw [e, h]; exact c2
    · exact absurd ⟨Or.inl rfl, h⟩ h12
  · by_cases s2 : size = 2
    · subst s2
      rcases hU with h | h | h
      · have e : getFieldType pf 2 type = pf.INT16 := by
          simp [getFieldType, getFieldType.case2, h]
        rw [e, h]; exact c3
      · have e : getFieldType pf 2 type = pf.UINT16 := by
          simp [getFieldType, getFieldType.case2, h, hUI]
        rw [e, h]; exact c4
      · exact absurd ⟨Or.inr rfl, h⟩ h12
    · by_cases s4 : size = 4
      · subst s4
        rcases hU with h | h | h
        · have e : getFieldType pf 4 type = pf.INT32 := by
            simp [getFieldType, getFieldType.case4, h]
          rw [e, h]; exact c5
        · have e : getFieldType pf 4 type = pf.UINT32 := by
            simp [getFieldType, getFieldType.case4, h, hUI]
          rw [e, h]; exact c6
        · have e : getFieldType pf 4 type = pf.FLOAT32 := by
            simp [getFieldType, getFieldType.case4, h, hFI, hFU]
          rw [e, h]; exact c7
      · by_cases s8 : size = 8
        · subst s8
          have hF : type.toUpper = 'F' := by
            by_contra hne
            exact h8 ⟨rfl, hne⟩
          have e : getFieldType pf 8 type = pf.FLOAT64 := by
            simp [getFieldType, getFieldType.case8]
          rw [e, hF]; exact c8
        · simp [getFieldType, s1, s2, s4, s8] at ht

theorem getFieldsListLoop_succ (fields : List String) (remaining i : Nat) (result : String) :
    getFieldsListLoop fields (remaining + 1) i result =
      match fields[i]? with
      | none => none
      | some name => getFieldsListLoop fields remaining (i + 1) (result ++ (name ++ " ")) :=
  rfl

/-- Inside the vector, the loop of lines 98-99 appends each name followed by a space. -/
theorem getFieldsListLoop_inside (fields : List String) :
    ∀ (remaining i : Nat) (result : String), i + remaining ≤ fields.length →
      getFieldsListLoop fields remaining i result =
        some (((fields.drop i).take remaining).foldl (fun r name => r ++ (name ++ " ")) result) := by
  intro remaining
  induction remaining with
  | zero => intro i result _; simp [getFieldsListLoop]
  | succ n ih =>
    intro i result h
    have hi : i < fields.length := by omega
    rw [getFieldsListLoop_succ, List.getElem?_eq_getElem hi]
    simp only
    rw [ih (i + 1) _ (by omega), List.drop_eq_getElem_cons hi]
    simp only [List.take_succ_cons, List.foldl_cons]

theorem intercalate_go_eq (sep : String) :
    ∀ (names : List String) (name acc : String),
      String.intercalate.go (acc ++ name) sep names =
        ((name :: names).dropLast.foldl (fun r n => r ++ (n ++ sep)) acc) ++
          (name :: names).getLast (List.cons_ne_nil _ _) := by
  intro names
  induction names with
  | nil => intro name acc; simp [String.intercalate.go]
  | cons b bs ih =>
    intro name acc
    have e : acc ++ name ++ sep ++ b = (acc ++ (name ++ sep)) ++ b := by
      simp [String.append_assoc]
    simp only [String.intercalate.go, List.dropLast_cons₂, List.foldl_cons,
      List.getLast_cons (List.cons_ne_nil b bs)]
    rw [e, ih b (acc ++ (name ++ sep))]

theorem sizeMinusOne_of_pos (n : Nat) (hpos : 0 < n) (hlen : n < 2 ^ 64) :
    sizeMinusOne n = n - 1 := by
  unfold sizeMinusOne
  have e : n + 2 ^ 64 - 1 = (n - 1) + 2 ^ 64 := by omega
  rw [e, Nat.add_mod_right, Nat.mod_eq_of_lt (by omega)]

theorem sizeMinusOne_zero : sizeMinusOne 0 = (2 ^ 64 - 2) + 1 := by
  unfold sizeMinusOne
  norm_num

/-- On a message with at least one field (and fewer than `2^64`), `getFieldsList` stays inside
`cloud.fields` and returns the names separated by single spaces. -/
theorem getFieldsList_of_ne_nil (fields : List String) (hne : fields ≠ [])
    (hlen : fields.length < 2 ^ 64) :
    getFieldsList fields = some (" ".intercalate fields) := by
  have hpos : 0 < fields.length := List.length_pos.mpr hne
  unfold getFieldsList
  rw [sizeMinusOne_of_pos _ hpos hlen]
  unfold getFieldsListUpTo
  rw [getFieldsListLoop_inside fields (fields.length - 1) 0 "" (by omega)]
  simp only [List.drop_zero]
  rw [List.getElem?_eq_getElem (by omega)]
  simp only [Option.some.injEq]
  obtain ⟨name, names, rfl⟩ := List.exists_cons_of_ne_nil hne
  have h := intercalate_go_eq " " names name ""
  rw [String.empty_append] at h
  show _ = String.intercalate.go name " " names
  rw [h, List.dropLast_eq_take, List.getLast_eq_getElem]

/-- C16 (the code where the property fails): for a message without fields the bound
`cloud.fields.size () - 1` of line 98 wraps around to `2^64 - 1`, so the loop is entered and
its first access `cloud.fields[0]` lies outside the (empty) vector; with at least one field
the result is the names separated by single spaces, as for `x`, `y`, `z`. -/
theorem C16_getFieldsList_empty_out_of_bounds :
    sizeMinusOne ([] : List String).length = 2 ^ 64 - 1 ∧
    ([] : List String)[0]? = none ∧
    getFieldsList [] = none ∧
    getFieldsList ["x", "y", "z"] = some "x y z" := by
  refine ⟨by simp [sizeMinusOne], rfl, ?_, ?_⟩
  · unfold getFieldsList
    rw [List.length_nil, sizeMinusOne_zero]
    unfold getFieldsListUpTo
    rw [getFieldsListLoop_succ]
    rfl
  · rw [getFieldsList_of_ne_nil _ (by simp) (by norm_num)]
    decide

/-! ## The flag `converged_` (C17) -/

theorem converge_not_mem_of_searches_reject {Cloud : Type} (output : Cloud)
    (ev : List (Event Cloud)) (src tgt : List Int)
    (h : ∀ e ∈ ev, ∃ i b, e = Event.search output i b) :
    Event.converge ∉ ev ++ [Event.reject output src tgt] := by
  intro hmem
  rcases List.mem_append.mp hmem with h1 | h1
  · exact converge_not_mem_searches output ev h h1
  · simp at h1

/-- A pass entered with `converged_` false either leaves it false and does not execute
`converged_ = true`, or reaches the end of the body and executes `converged_ = true` as its
last step, right after the transformation of the cloud. -/
theorem iteration_converge_shape {Cloud : Type} (C : Collaborators Cloud) (s : ICP Cloud)
    (hs : s.converged_ = false) :
    ((iteration C s).state.converged_ = false ∧ Event.converge ∉ (iteration C s).events) ∨
    ((iteration C s).returned = false ∧ (iteration C s).state.converged_ = true ∧
      ∃ pre T, (iteration C s).events = pre ++ [Event.transform s.output T, Event.converge] ∧
        Event.converge ∉ pre) := by
  rcases iteration_cases C s with ⟨ev, hfc, hi⟩ | ⟨ev, src, tgt, hfc, _, hi⟩ |
    ⟨ev, src, tgt, T, hfc, _, _, hi⟩
  · left
    rw [hi]
    refine ⟨hs, converge_not_mem_searches s.output ev ?_⟩
    intro e he
    exact findCorrespondences_events_search C s e (by rw [hfc]; exact he)
  · left
    rw [hi]
    refine ⟨rfl, converge_not_mem_of_searches_reject s.output ev src tgt ?_⟩
    intro e he
    exact findCorrespondences_events_search C s e (by rw [hfc]; exact he)
  · have hev : ∀ e ∈ ev, ∃ i b, e = Event.search s.output i b := by
      intro e he
      exact findCorrespondences_events_search C s e (by rw [hfc]; exact he)
    have hpre := converge_not_mem_of_searches_reject s.output ev src tgt hev
    rw [hi]
    by_cases hc : convergenceCheck (s.nr_iterations_ + 1) s.max_iterations_ T
        s.transformation_ s.transformation_epsilon_ = true
    · right
      refine ⟨rfl, by simp [afterEstimate, hc], ev ++ [Event.reject s.output src tgt] ++
        [Event.estimate s.output (rejectOutliers C s.output src tgt).1
          (rejectOutliers C s.output src tgt).2 T], T, by simp [hc], ?_⟩
      intro hmem
      rcases List.mem_append.mp hmem with h1 | h1
      · exact hpre h1
      · simp at h1
    · left
      refine ⟨by simp [afterEstimate, hc, hs], ?_⟩
      simp only [hc, Bool.false_eq_true, if_false, List.append_nil]
      intro hmem
      rcases List.mem_append.mp hmem with h1 | h1
      · exact hpre h1
      · simp at h1

/-- The trace of a loop entered with `converged_` false: `converged_ = true` is executed at
most once, as the very last step and right after a transformation of the cloud, and exactly
when the loop ends with `converged_` true. -/
theorem whileLoop_converge {Cloud : Type} (C : Collaborators Cloud) :
    ∀ (fuel : Nat) (s : ICP Cloud) (tr : List (Event Cloud)) (r : ICP Cloud)
      (tr' : List (Event Cloud)), whileLoop C fuel s tr = some (r, tr') →
      s.converged_ = false →
      ∃ ev, tr' = tr ++ ev ∧
        ((r.converged_ = false ∧ Event.converge ∉ ev) ∨
          (r.converged_ = true ∧
            ∃ pre c T, ev = pre ++ [Event.transform c T, Event.converge] ∧
              Event.converge ∉ pre)) := by
  intro fuel
  induction fuel with
  | zero =>
    intro s tr r tr' h hs
    rw [whileLoop_zero C s tr hs] at h; cases h
  | succ n ih =>
    intro s tr r tr' h hs
    rw [whileLoop_succ C n s tr hs] at h
    by_cases hr : (iteration C s).returned = true
    · simp only [hr, if_true, Option.some.injEq, Prod.mk.injEq] at h
      refine ⟨(iteration C s).events, h.2.symm, ?_⟩
      rcases iteration_converge_shape C s hs with ⟨h1, h2⟩ | ⟨h1, _⟩
      · left; rw [← h.1]; exact ⟨h1, h2⟩
      · rw [h1] at hr; cases hr
    · have hr' : (iteration C s).returned = false := by simpa using hr
      simp only [hr', Bool.false_eq_true, if_false] at h
      rcases iteration_converge_shape C s hs with ⟨h1, h2⟩ | ⟨_, h1, pre, T, h2, h3⟩
      · obtain ⟨ev, e1, e2⟩ := ih _ _ _ _ h h1
        refine ⟨(iteration C s).events ++ ev, by rw [e1, List.append_assoc], ?_⟩
        rcases e2 with ⟨e3, e4⟩ | ⟨e3, pre, c, T, e4, e5⟩
        · left
          refine ⟨e3, ?_⟩
          intro hmem
          rcases List.mem_append.mp hmem with h5 | h5
          · exact h2 h5
          · exact e4 h5
        · right
          refine ⟨e3, (iteration C s).events ++ pre, c, T, by rw [e4, List.append_assoc], ?_⟩
          intro hmem
          rcases List.mem_append.mp hmem with h5 | h5
          · exact h2 h5
          · exact e5 h5
      · rw [whileLoop_converged C n _ _ h1] at h
        simp only [Option.some.injEq, Prod.mk.injEq] at h
        refine ⟨(iteration C s).events, h.2.symm, Or.inr ⟨by rw [← h.1]; exact h1, pre,
          s.output, T, h2, h3⟩⟩

theorem countP_isConverge_eq_zero {Cloud : Type} (l : List (Event Cloud))
    (h : Event.converge ∉ l) : l.countP Event.isConverge = 0 := by
  rw [List.countP_eq_zero]
  intro e he hc
  cases e <;> simp [Event.isConverge] at hc
  exact h he

theorem converge_not_mem_initialGuess {Cloud : Type} (C : Collaborators Cloud) (s : ICP Cloud)
    (guess : Matrix4f) : Event.converge ∉ (initialGuess C s guess).2 := by
  unfold initialGuess
  split <;> simp

/-- C17: every call of `computeTransformation` runs some number `m` of passes through the loop
body, and: each pass is entered with `converged_` false; a pass that returns leaves it false;
after a pass `converged_` is true exactly when the pass executed `converged_ = true`; over the
whole call `converged_ = true` is executed at most once, and when it is, it is the last step
of the call, directly after the transformation of the cloud by the increment of that pass
(so no search, rejection, estimation or transformation follows it), and `converged_` is
true on return exactly in that case. -/
theorem C17_converged_set_once_and_last {Cloud : Type} (C : Collaborators Cloud)
    (s : ICP Cloud) (guess : Matrix4f) :
    ∃ r tr, ∃ m : Nat, computeTransformation C s guess = some (r, tr) ∧
      r = passes C m (initialGuess C s guess).1 ∧
      tr = (initialGuess C s guess).2 ++ traceOfPasses C m (initialGuess C s guess).1 ∧
      (∀ j, j < m → (passes C j (initialGuess C s guess).1).converged_ = false) ∧
      (∀ j, j < m → (iteration C (passes C j (initialGuess C s guess).1)).returned = true →
        (passes C (j + 1) (initialGuess C s guess).1).converged_ = false) ∧
      (∀ j, j < m →
        ((passes C (j + 1) (initialGuess C s guess).1).converged_ = true ↔
          Event.converge ∈ (iteration C (passes C j (initialGuess C s guess).1)).events)) ∧
      tr.countP Event.isConverge ≤ 1 ∧
      (r.converged_ = true ↔ Event.converge ∈ tr) ∧
      (Event.converge ∈ tr →
        ∃ pre c T, tr = pre ++ [Event.transform c T, Event.converge] ∧
          Event.converge ∉ pre) := by
  obtain ⟨⟨r, tr⟩, h⟩ := computeTransformation_total C s guess
  have hc0 := (initialGuess_facts C s guess).2.1
  have hinit := converge_not_mem_initialGuess C s guess
  have h' := h
  unfold computeTransformation at h'
  obtain ⟨m, _, e1, e2, e3, _, _⟩ := whileLoop_run C _ _ _ _ _ h'
  obtain ⟨ev, f1, f2⟩ := whileLoop_converge C _ _ _ _ _ h' hc0
  have hpass : ∀ j, j < m →
      ((passes C (j + 1) (initialGuess C s guess).1).converged_ = true ↔
        Event.converge ∈ (iteration C (passes C j (initialGuess C s guess).1)).events) := by
    intro j hj
    show (iteration C (passes C j (initialGuess C s guess).1)).state.converged_ = true ↔ _
    rcases iteration_converge_shape C _ (e3 j hj) with ⟨h1, h2⟩ | ⟨_, h1, pre, T, h2, _⟩
    · rw [h1]; simp [h2]
    · rw [h1, h2]; simp
  refine ⟨r, tr, m, h, e1, e2, e3, ?_, hpass, ?_, ?_, ?_⟩
  · intro j hj hr
    exact (iteration_returned C _ hr).2.2.2.2.2 (e3 j hj)
  · rw [f1, List.countP_append, countP_isConverge_eq_zero _ hinit]
    rcases f2 with ⟨_, f3⟩ | ⟨_, pre, c, T, f3, f4⟩
    · rw [countP_isConverge_eq_zero _ f3]; omega
    · rw [f3, List.countP_append, countP_isConverge_eq_zero _ f4]
      simp [List.countP_cons, Event.isConverge]
  · rw [f1]
    rcases f2 with ⟨f3, f4⟩ | ⟨f3, pre, c, T, f4, _⟩
    · rw [f3]
      simp only [Bool.false_eq_true, false_iff]
      intro hmem
      rcases List.mem_append.mp hmem with h5 | h5
      · exact hinit h5
      · exact f4 h5
    · rw [f3, f4]; simp
  · intro hmem
    rw [f1] at hmem ⊢
    rcases f2 with ⟨_, f4⟩ | ⟨_, pre, c, T, f4, f5⟩
    · rcases List.mem_append.mp hmem with h5 | h5
      · exact absurd h5 hinit
      · exact absurd h5 f4
    · refine ⟨(initialGuess C s guess).2 ++ pre, c, T, by rw [f4, List.append_assoc], ?_⟩
      intro h6
      rcases List.mem_append.mp h6 with h5 | h5
      · exact hinit h5
      · exact f5 h5

/-- C17, witness: the two-step call executes `converged_ = true` once, as its last step, and
returns with `converged_` true. -/
theorem C17_converged_set_once_and_last_witness :
    ∃ r tr, computeTransformation twoStepCollaborators twoStepICP 1 = some (r, tr) ∧
      r.converged_ = true ∧ tr.countP Event.isConverge ≤ 1 ∧
      ∃ pre c T, tr = pre ++ [Event.transform c T, Event.converge] ∧
        Event.converge ∉ pre := by
  obtain ⟨r, tr, m, h, _, _, _, _, _, hcount, hconv, hlast⟩ :=
    C17_converged_set_once_and_last twoStepCollaborators twoStepICP 1
  have heval := computeTransformation_twoStep
  rw [h] at heval
  simp only [Option.some.injEq, Prod.mk.injEq] at heval
  have hr : r.converged_ = true := by rw [heval.1]
  exact ⟨r, tr, h, hr, hcount, hlast (hconv.mp hr)⟩


/-! ## The bounds of the correspondence vectors (C18) -/

/-- With `cnt` at most the position reached and both vectors as long as the index subset, no
write of the `for` loop leaves its vector, and `cnt` ends at most at the size of the subset. -/
theorem searchLoopChecked_eq {Cloud : Type} (C : Collaborators Cloud) (output : Cloud)
    (thr : ℚ) (n : Nat) :
    ∀ (remaining idx : Nat) (c : Corr), c.cnt ≤ idx → idx + remaining ≤ n →
      c.source_indices.length = n → c.target_indices.length = n →
      searchLoopChecked C output thr remaining idx c =
        some (searchLoop C output thr remaining idx c) ∧
      ∀ c', (searchLoop C output thr remaining idx c).2 = some c' →
        c'.cnt ≤ idx + remaining ∧ c'.cnt ≤ n := by
  intro remaining
  induction remaining with
  | zero =>
    intro idx c h1 h2 _ _
    refine ⟨rfl, ?_⟩
    intro c' hc'
    simp only [searchLoop, Option.some.injEq] at hc'
    subst hc'
    omega
  | succ k ih =>
    intro idx c h1 h2 h3 h4
    rcases hq : C.searchForNeighbors output idx with _ | ⟨nn, d⟩
    · refine ⟨by simp [searchLoopChecked, searchLoop, hq], ?_⟩
      intro c' hc'
      simp [searchLoop, hq] at hc'
    · by_cases hd : d < thr
      · obtain ⟨ih1, ih2⟩ := ih (idx + 1)
          { cnt := c.cnt + 1
            source_indices := c.source_indices.set c.cnt (idx : Int)
            target_indices := c.target_indices.set c.cnt nn }
          (by simp only; omega) (by omega) (by simp [h3]) (by simp [h4])
        have hb : c.cnt < c.source_indices.length ∧ c.cnt < c.target_indices.length := by
          rw [h3, h4]; omega
        refine ⟨by simp [searchLoopChecked, searchLoop, hq, hd, hb, ih1], ?_⟩
        intro c' hc'
        simp only [searchLoop, hq, hd, if_true] at hc'
        have := ih2 c' hc'
        omega
      · obtain ⟨ih1, ih2⟩ := ih (idx + 1) c (by omega) (by omega) h3 h4
        refine ⟨by simp [searchLoopChecked, searchLoop, hq, hd, ih1], ?_⟩
        intro c' hc'
        simp only [searchLoop, hq, hd, if_false] at hc'
        have := ih2 c' hc'
        omega

theorem kept_fst_lt {Cloud : Type} (C : Collaborators Cloud) (output : Cloud) (thr : ℚ)
    (n : Nat) (x : Int) (hx : x ∈ (kept C output thr 0 n).map Prod.fst) :
    0 ≤ x ∧ x < (n : Int) := by
  obtain ⟨⟨a, b⟩, hmem, rfl⟩ := List.mem_map.mp hx
  obtain ⟨i, d, _, hi, ha, _, _⟩ := (mem_kept C output thr 0 n a b).mp hmem
  simp only [ha]
  omega

/-- C18: in every pass of the loop body, every write `source_indices[cnt]` and
`target_indices[cnt]` of the `for` loop lies inside its vector of `indices_->size ()`
elements (the loop with the writes checked gives the result of the loop as written), the
counter `cnt` ends at most at `indices_->size ()`, and when the loop ends normally the
distance-filtered lists have equal length at most `indices_->size ()` and the stored source
indices are non-negative, below `indices_->size ()` and strictly increasing, hence pairwise
distinct. -/
theorem C18_correspondence_vectors_in_bounds {Cloud : Type} (C : Collaborators Cloud)
    (s : ICP Cloud) :
    searchLoopChecked C s.output (s.corr_dist_threshold_ * s.corr_dist_threshold_)
        s.indices_size 0
        { cnt := 0
          source_indices := List.replicate s.indices_size 0
          target_indices := List.replicate s.indices_size 0 } =
      some (searchLoop C s.output (s.corr_dist_threshold_ * s.corr_dist_threshold_)
        s.indices_size 0
        { cnt := 0
          source_indices := List.replicate s.indices_size 0
          target_indices := List.replicate s.indices_size 0 }) ∧
    (∀ c', (searchLoop C s.output (s.corr_dist_threshold_ * s.corr_dist_threshold_)
        s.indices_size 0
        { cnt := 0
          source_indices := List.replicate s.indices_size 0
          target_indices := List.replicate s.indices_size 0 }).2 = some c' →
      c'.cnt ≤ s.indices_size) ∧
    (∀ ev src tgt, findCorrespondences C s = (ev, some (src, tgt)) →
      src.length ≤ s.indices_size ∧
      tgt.length = src.length ∧
      (∀ x ∈ src, 0 ≤ x ∧ x < (s.indices_size : Int)) ∧
      src.Pairwise (fun a b => a < b) ∧
      src.Nodup) := by
  obtain ⟨h1, h2⟩ := searchLoopChecked_eq C s.output
    (s.corr_dist_threshold_ * s.corr_dist_threshold_) s.indices_size s.indices_size 0
    { cnt := 0
      source_indices := List.replicate s.indices_size 0
      target_indices := List.replicate s.indices_size 0 }
    (le_refl _) (by omega) (by simp) (by simp)
  refine ⟨h1, fun c' hc' => (h2 c' hc').2, ?_⟩
  intro ev src tgt h
  obtain ⟨_, _, hsrc, htgt⟩ := findCorrespondences_lists C s ev src tgt h
  have hpw := kept_fst_pairwise C s.output (s.corr_dist_threshold_ * s.corr_dist_threshold_) 0
    s.indices_size
  have hlen := kept_length_le C s.output (s.corr_dist_threshold_ * s.corr_dist_threshold_) 0
    s.indices_size
  rw [hsrc, htgt]
  refine ⟨by simpa using hlen, by simp, fun x hx => kept_fst_lt C _ _ _ x hx, hpw, ?_⟩
  exact hpw.imp (fun hab => ne_of_lt hab)

/-- C18, witness: with three points all kept, the lists have three elements, the source
indices are `0, 1, 2`, below `3` and increasing. -/
theorem C18_correspondence_vectors_in_bounds_witness :
    ([0, 1, 2] : List Int).length ≤ threePointICP.indices_size ∧
    (∀ x ∈ ([0, 1, 2] : List Int), 0 ≤ x ∧ x < (threePointICP.indices_size : Int)) ∧
    ([0, 1, 2] : List Int).Pairwise (fun a b => a < b) := by
  obtain ⟨h1, _, h3, h4, _⟩ :=
    (C18_correspondence_vectors_in_bounds inlierCollaborators threePointICP).2.2 _ _ _
      findCorrespondences_threePoint
  exact ⟨h1, h3, h4⟩


/-! ## The working cloud and the cumulative transformation (C19) -/

/-- A pass keeps the working cloud equal to a fixed cloud transformed by
`final_transformation_`, when transforming is a left action. -/
theorem iteration_cloud_invariant {Cloud : Type} (C : Collaborators Cloud) (s : ICP Cloud)
    (input : Cloud)
    (hact : ∀ (c : Cloud) (A B : Matrix4f),
      C.transformPointCloud (C.transformPointCloud c B) A = C.transformPointCloud c (A * B))
    (hinv : s.output = C.transformPointCloud input s.final_transformation_) :
    (iteration C s).state.output =
      C.transformPointCloud input (iteration C s).state.final_transformation_ := by
  by_cases hr : (iteration C s).returned = true
  · obtain ⟨_, h2, _, _, h5, _⟩ := iteration_returned C s hr
    rw [h5, h2, hinv]
  · obtain ⟨_, h2, _, h4⟩ := iteration_completed C s (by simpa using hr)
    rw [h4, h2, hinv, hact]

/-- C19: if `transformPointCloud` is a left action of the 4x4 matrices on clouds (transforming
by `B` and then by `A` is transforming by `A * B`, transforming by the identity changes
nothing) and `final_transformation_` is the identity at entry whenever the guess is the
identity, then after the initial-guess step, after every pass of the loop and on return the
working cloud is the input cloud transformed by the current `final_transformation_`. -/
theorem C19_cloud_is_input_transformed_by_final {Cloud : Type} (C : Collaborators Cloud)
    (s : ICP Cloud) (guess : Matrix4f)
    (hact : ∀ (c : Cloud) (A B : Matrix4f),
      C.transformPointCloud (C.transformPointCloud c B) A = C.transformPointCloud c (A * B))
    (hid : ∀ c : Cloud, C.transformPointCloud c 1 = c)
    (hentry : guess = 1 → s.final_transformation_ = 1) :
    (initialGuess C s guess).1.output =
      C.transformPointCloud s.output (initialGuess C s guess).1.final_transformation_ ∧
    (∀ k, (passes C k (initialGuess C s guess).1).output =
      C.transformPointCloud s.output
        (passes C k (initialGuess C s guess).1).final_transformation_) ∧
    ∃ r tr, computeTransformation C s guess = some (r, tr) ∧
      r.output = C.transformPointCloud s.output r.final_transformation_ := by
  have h0 : (initialGuess C s guess).1.output =
      C.transformPointCloud s.output (initialGuess C s guess).1.final_transformation_ := by
    by_cases hg : guess = 1
    · subst hg
      rw [initialGuess_identity]
      simp only
      rw [hentry rfl, hid]
    · simp [initialGuess, hg]
  have hk : ∀ k, (passes C k (initialGuess C s guess).1).output =
      C.transformPointCloud s.output
        (passes C k (initialGuess C s guess).1).final_transformation_ := by
    intro k
    induction k with
    | zero => exact h0
    | succ k ih => exact iteration_cloud_invariant C _ s.output hact ih
  refine ⟨h0, hk, ?_⟩
  obtain ⟨⟨r, tr⟩, h⟩ := computeTransformation_total C s guess
  have h' := h
  unfold computeTransformation at h'
  obtain ⟨m, _, e1, _⟩ := whileLoop_run C _ _ _ _ _ h'
  exact ⟨r, tr, h, by rw [e1]; exact hk m⟩

/-- C19, witness: with clouds held as matrices and transformation as multiplication on the
left, the call with a translation as guess returns a cloud that is the input cloud
multiplied by the final transformation. -/
theorem C19_cloud_is_input_transformed_by_final_witness :
    (∀ (c A B : Matrix4f),
      matrixCollaborators.transformPointCloud (matrixCollaborators.transformPointCloud c B) A =
        matrixCollaborators.transformPointCloud c (A * B)) ∧
    (∀ c : Matrix4f, matrixCollaborators.transformPointCloud c 1 = c) ∧
    ∃ r tr, computeTransformation matrixCollaborators matrixICP translationX = some (r, tr) ∧
      r.output = r.final_transformation_ * quarterTurnZ := by
  have hact : ∀ (c A B : Matrix4f),
      matrixCollaborators.transformPointCloud (matrixCollaborators.transformPointCloud c B) A =
        matrixCollaborators.transformPointCloud c (A * B) := by
    intro c A B
    simp [matrixCollaborators, Matrix.mul_assoc]
  have hid : ∀ c : Matrix4f, matrixCollaborators.transformPointCloud c 1 = c := by
    intro c
    simp [matrixCollaborators]
  obtain ⟨_, _, r, tr, h, hr⟩ :=
    C19_cloud_is_input_transformed_by_final matrixCollaborators matrixICP translationX
      hact hid (fun _ => rfl)
  exact ⟨hact, hid, r, tr, h, hr⟩


/-! ## The strict distance test (C20) -/

/-- A position is among the kept source indices exactly when its squared distance is
strictly below the threshold. -/
theorem mem_kept_fst_iff {Cloud : Type} (C : Collaborators Cloud) (output : Cloud) (thr : ℚ)
    (n i : Nat) (nn : Int) (d : ℚ) (hi : i < n)
    (hq : C.searchForNeighbors output i = some (nn, d)) :
    (((i : Int), nn) ∈ kept C output thr 0 n ↔ d < thr) ∧
    ((i : Int) ∈ (kept C output thr 0 n).map Prod.fst ↔ d < thr) := by
  have hpair : ((i : Int), nn) ∈ kept C output thr 0 n ↔ d < thr := by
    rw [mem_kept]
    constructor
    · rintro ⟨j, e, _, _, hj, hqj, he⟩
      have hji : j = i := by exact_mod_cast hj.symm
      subst hji
      rw [hq] at hqj
      simp only [Option.some.injEq, Prod.mk.injEq] at hqj
      rw [hqj.2]
      exact he
    · intro hd
      exact ⟨i, d, Nat.zero_le _, by omega, rfl, hq, hd⟩
  refine ⟨hpair, ?_⟩
  constructor
  · intro hmem
    obtain ⟨⟨a, b⟩, hab, ha⟩ := List.mem_map.mp hmem
    simp only at ha
    subst ha
    obtain ⟨j, e, _, _, hj, hqj, he⟩ := (mem_kept C output thr 0 n _ b).mp hab
    have hji : j = i := by exact_mod_cast hj.symm
    subst hji
    rw [hq] at hqj
    simp only [Option.some.injEq, Prod.mk.injEq] at hqj
    rw [hqj.2]
    exact he
  · intro hd
    exact List.mem_map.mpr ⟨((i : Int), nn), hpair.mpr hd, rfl⟩

/-- C20: in every pass of the loop body in which all neighbour searches succeed, the
correspondence of a position is retained in the distance-filtered lists if and only if its
squared nearest-neighbour distance is strictly below `corr_dist_threshold_` squared; so one
whose squared distance equals the squared threshold is dropped, and with
`corr_dist_threshold_ = 0` (squared distances being non-negative) the lists are empty. -/
theorem C20_distance_test_is_strict {Cloud : Type} (C : Collaborators Cloud) (s : ICP Cloud)
    (hall : ∀ i, i < s.indices_size → C.searchForNeighbors s.output i ≠ none) :
    ∃ src tgt, (findCorrespondences C s).2 = some (src, tgt) ∧
      (∀ i nn d, i < s.indices_size → C.searchForNeighbors s.output i = some (nn, d) →
        ((((i : Int), nn) ∈ List.zip src tgt ↔
            d < s.corr_dist_threshold_ * s.corr_dist_threshold_) ∧
          ((i : Int) ∈ src ↔ d < s.corr_dist_threshold_ * s.corr_dist_threshold_))) ∧
      (∀ i nn d, i < s.indices_size → C.searchForNeighbors s.output i = some (nn, d) →
        d = s.corr_dist_threshold_ * s.corr_dist_threshold_ → (i : Int) ∉ src) ∧
      (s.corr_dist_threshold_ = 0 →
        (∀ i nn d, i < s.indices_size → C.searchForNeighbors s.output i = some (nn, d) →
          0 ≤ d) →
        src = [] ∧ tgt = []) := by
  have h := findCorrespondences_some C s hall
  have hiff : ∀ i nn d, i < s.indices_size → C.searchForNeighbors s.output i = some (nn, d) →
      ((((i : Int), nn) ∈ List.zip
            ((kept C s.output (s.corr_dist_threshold_ * s.corr_dist_threshold_) 0
              s.indices_size).map Prod.fst)
            ((kept C s.output (s.corr_dist_threshold_ * s.corr_dist_threshold_) 0
              s.indices_size).map Prod.snd) ↔
          d < s.corr_dist_threshold_ * s.corr_dist_threshold_) ∧
        ((i : Int) ∈ (kept C s.output (s.corr_dist_threshold_ * s.corr_dist_threshold_) 0
            s.indices_size).map Prod.fst ↔
          d < s.corr_dist_threshold_ * s.corr_dist_threshold_)) := by
    intro i nn d hi hq
    rw [zip_map_fst_map_snd]
    exact mem_kept_fst_iff C s.output _ s.indices_size i nn d hi hq
  refine ⟨_, _, by rw [h], hiff, ?_, ?_⟩
  · intro i nn d hi hq hd hmem
    have := ((hiff i nn d hi hq).2).mp hmem
    rw [hd] at this
    exact lt_irrefl _ this
  · intro hthr hnonneg
    have hnil : kept C s.output (s.corr_dist_threshold_ * s.corr_dist_threshold_) 0
        s.indices_size = [] := by
      rw [List.eq_nil_iff_forall_not_mem]
      rintro ⟨a, b⟩ hmem
      obtain ⟨i, d, _, hi, _, hq, hd⟩ := (mem_kept C s.output _ 0 s.indices_size a b).mp hmem
      have h0 := hnonneg i b d (by omega) hq
      rw [hthr] at hd
      simp only [mul_zero] at hd
      exact absurd hd (not_lt.mpr h0)
    rw [hnil]
    exact ⟨rfl, rfl⟩

/-- C20, witness: one point whose neighbour lies at squared distance `1`, equal to the squared
threshold, is not retained. -/
theorem C20_distance_test_is_strict_witness :
    ∃ src tgt, (findCorrespondences boundaryCollaborators onePointICP).2 = some (src, tgt) ∧
      (0 : Int) ∉ src := by
  obtain ⟨src, tgt, h, _, heq, _⟩ :=
    C20_distance_test_is_strict boundaryCollaborators onePointICP
      (by simp [boundaryCollaborators])
  refine ⟨src, tgt, h, ?_⟩
  have := heq 0 7 1 (by simp [onePointICP]) rfl (by simp [onePointICP])
  simpa using this


/-! ## The round trip of the field helpers (C21) -/

/-- What `getFieldType (size, type)` returns on the size and type character of each of the
eight constants. -/
theorem getFieldType_of_size_and_char (pf : PointField) :
    getFieldType pf 1 'I' = pf.INT8 ∧ getFieldType pf 1 'U' = pf.UINT8 ∧
    getFieldType pf 2 'I' = pf.INT16 ∧ getFieldType pf 2 'U' = pf.UINT16 ∧
    getFieldType pf 4 'I' = pf.INT32 ∧ getFieldType pf 4 'U' = pf.UINT32 ∧
    getFieldType pf 4 'F' = pf.FLOAT32 ∧ getFieldType pf 8 'F' = pf.FLOAT64 := by
  have hI : 'I'.toUpper = 'I' := by decide
  have hU : 'U'.toUpper = 'U' := by decide
  have hF : 'F'.toUpper = 'F' := by decide
  have hUI : ('U' : Char) ≠ 'I' := by decide
  have hFI : ('F' : Char) ≠ 'I' := by decide
  have hFU : ('F' : Char) ≠ 'U' := by decide
  refine ⟨?_, ?_, ?_, ?_, ?_, ?_, ?_, ?_⟩
  · simp [getFieldType, getFieldType.case1, hI]
  · simp [getFieldType, getFieldType.case1, hU, hUI]
  · simp [getFieldType, getFieldType.case2, hI]
  · simp [getFieldType, getFieldType.case2, hU, hUI]
  · simp [getFieldType, getFieldType.case4, hI]
  · simp [getFieldType, getFieldType.case4, hU, hUI]
  · simp [getFieldType, getFieldType.case4, hF, hFI, hFU]
  · simp [getFieldType, getFieldType.case8]

/-- C21: for each of the eight `PointField` datatypes `t` (`INT8`, `UINT8`, `INT16`, `UINT16`,
`INT32`, `UINT32`, `FLOAT32`, `FLOAT64`),
`getFieldType (getFieldSize (t), getFieldType (t)) = t`; and for every other integer `t`,
`getFieldSize (t) = 0` and `getFieldType (t)` is the character `?`. -/
theorem C21_size_and_char_decode_back (pf : PointField) :
    (∀ t : Int,
      t ∈ [pf.INT8, pf.UINT8, pf.INT16, pf.UINT16, pf.INT32, pf.UINT32, pf.FLOAT32,
        pf.FLOAT64] →
      getFieldType pf (getFieldSize pf t) (getFieldType₁ pf t) = t) ∧
    (∀ t : Int,
      t ∉ [pf.INT8, pf.UINT8, pf.INT16, pf.UINT16, pf.INT32, pf.UINT32, pf.FLOAT32,
        pf.FLOAT64] →
      getFieldSize pf t = 0 ∧ getFieldType₁ pf t = '?') := by
  obtain ⟨c1, c2, c3, c4, c5, c6, c7, c8⟩ := fieldSize_fieldType_of_constants pf
  obtain ⟨g1, g2, g3, g4, g5, g6, g7, g8⟩ := getFieldType_of_size_and_char pf
  constructor
  · intro t ht
    simp only [List.mem_cons, List.mem_singleton, List.not_mem_nil, or_false] at ht
    rcases ht with rfl | rfl | rfl | rfl | rfl | rfl | rfl | rfl
    · rw [c1.1, c1.2]; exact g1
    · rw [c2.1, c2.2]; exact g2
    · rw [c3.1, c3.2]; exact g3
    · rw [c4.1, c4.2]; exact g4
    · rw [c5.1, c5.2]; exact g5
    · rw [c6.1, c6.2]; exact g6
    · rw [c7.1, c7.2]; exact g7
    · rw [c8.1, c8.2]; exact g8
  · intro t ht
    simp only [List.mem_cons, List.mem_singleton, List.not_mem_nil, or_false, not_or] at ht
    obtain ⟨n1, n2, n3, n4, n5, n6, n7, n8⟩ := ht
    simp [getFieldSize, getFieldType₁, n1, n2, n3, n4, n5, n6, n7, n8]

/-- C21, witness: with the constants of `sensor_msgs/PointField.h`, `FLOAT32 = 7` has size `4`
and character `F` and is decoded back to `7`; `0` and `9` are no datatype and have size `0`
and character `?`. -/
theorem C21_size_and_char_decode_back_witness :
    getFieldType rosPointField (getFieldSize rosPointField 7) (getFieldType₁ rosPointField 7) = 7 ∧
    (getFieldSize rosPointField 0 = 0 ∧ getFieldType₁ rosPointField 0 = '?') ∧
    (getFieldSize rosPointField 9 = 0 ∧ getFieldType₁ rosPointField 9 = '?') := by
  have h := C21_size_and_char_decode_back rosPointField
  exact ⟨h.1 7 (by decide), h.2 0 (by decide), h.2 9 (by decide)⟩

/-! ## The finalisation of the reconstruction (C22) -/

/-- C22: `reconstruct` calls `deinitCompute` if and only if it calls `performReconstruction`
(each at most once, `deinitCompute` as the last call, right after `performReconstruction`);
in particular, when `initCompute` succeeds but `check_tree_` is set and no `tree_` was given,
the only call made is `initCompute` and the function returns without calling
`deinitCompute`. -/
theorem C22_deinitCompute_iff_performReconstruction {Header Rest Polygon : Type}
    (R : SurfaceReconstruction Header Rest Polygon) (output : PolygonMesh Header Rest Polygon) :
    (reconstruct R output).2.countP ReconstructEvent.isDeinitCompute =
      (reconstruct R output).2.countP ReconstructEvent.isPerformReconstruction ∧
    (reconstruct R output).2.countP ReconstructEvent.isDeinitCompute ≤ 1 ∧
    (ReconstructEvent.deinitCompute ∈ (reconstruct R output).2 ↔
      ∃ arg, ReconstructEvent.performReconstruction arg ∈ (reconstruct R output).2) ∧
    (ReconstructEvent.deinitCompute ∈ (reconstruct R output).2 →
      ∃ pre arg, (reconstruct R output).2 =
        pre ++ [ReconstructEvent.performReconstruction arg, ReconstructEvent.deinitCompute]) ∧
    (R.initCompute = true → R.check_tree_ = true → R.tree_ = false →
      (reconstruct R output).2 = [ReconstructEvent.initCompute true] ∧
      (reconstruct R output).2.countP ReconstructEvent.isDeinitCompute = 0) := by
  by_cases hi : R.initCompute = true
  · by_cases hc : R.check_tree_ = true
    · by_cases ht : R.tree_ = true
      · refine ⟨?_, ?_, ?_, ?_, ?_⟩
        · simp [reconstruct, hi, hc, ht, List.countP_cons, ReconstructEvent.isDeinitCompute,
            ReconstructEvent.isPerformReconstruction]
        · simp [reconstruct, hi, hc, ht, List.countP_cons, ReconstructEvent.isDeinitCompute]
        · simp [reconstruct, hi, hc, ht]
        · intro _
          exact ⟨[ReconstructEvent.initCompute true, ReconstructEvent.setInputCloud,
            ReconstructEvent.toROSMsg],
            { header := R.input_header, cloud := R.toROSMsg output.cloud, polygons := [] },
            by simp [reconstruct, hi, hc, ht]⟩
        · intro _ _ h; rw [ht] at h; cases h
      · have ht' : R.tree_ = false := by simpa using ht
        refine ⟨?_, ?_, ?_, ?_, ?_⟩
        · simp [reconstruct, hi, hc, ht', List.countP_cons, ReconstructEvent.isDeinitCompute,
            ReconstructEvent.isPerformReconstruction]
        · simp [reconstruct, hi, hc, ht', List.countP_cons, ReconstructEvent.isDeinitCompute]
        · simp [reconstruct, hi, hc, ht']
        · intro h; simp [reconstruct, hi, hc, ht'] at h
        · intro _ _ _
          simp [reconstruct, hi, hc, ht', List.countP_cons, ReconstructEvent.isDeinitCompute]
    · have hc' : R.check_tree_ = false := by simpa using hc
      refine ⟨?_, ?_, ?_, ?_, ?_⟩
      · simp [reconstruct, hi, hc', List.countP_cons, ReconstructEvent.isDeinitCompute,
          ReconstructEvent.isPerformReconstruction]
      · simp [reconstruct, hi, hc', List.countP_cons, ReconstructEvent.isDeinitCompute]
      · simp [reconstruct, hi, hc']
      · intro _
        exact ⟨[ReconstructEvent.initCompute true, ReconstructEvent.toROSMsg],
          { header := R.input_header, cloud := R.toROSMsg output.cloud, polygons := [] },
          by simp [reconstruct, hi, hc']⟩
      · intro _ h; rw [hc'] at h; cases h
  · have hi' : R.initCompute = false := by simpa using hi
    refine ⟨?_, ?_, ?_, ?_, ?_⟩
    · simp [reconstruct, hi', List.countP_cons, ReconstructEvent.isDeinitCompute,
        ReconstructEvent.isPerformReconstruction]
    · simp [reconstruct, hi', List.countP_cons, ReconstructEvent.isDeinitCompute]
    · simp [reconstruct, hi']
    · intro h; simp [reconstruct, hi'] at h
    · intro h; rw [hi'] at h; cases h

/-- C22, witness: the reconstruction that asks for a tree and has none only calls
`initCompute`; the one with its tree ends with `performReconstruction` and
`deinitCompute`. -/
theorem C22_deinitCompute_iff_performReconstruction_witness :
    (reconstruct (addingReconstruction true true false) usedMesh).2 =
      [ReconstructEvent.initCompute true] ∧
    (reconstruct (addingReconstruction true true true) usedMesh).2.countP
      ReconstructEvent.isDeinitCompute = 1 := by
  have h1 := (C22_deinitCompute_iff_performReconstruction
    (addingReconstruction true true false) usedMesh).2.2.2.2 rfl rfl rfl
  have h2 := (C22_deinitCompute_iff_performReconstruction
    (addingReconstruction true true true) usedMesh).1
  refine ⟨h1.1, ?_⟩
  rw [h2]
  simp [reconstruct, addingReconstruction, List.countP_cons,
    ReconstructEvent.isPerformReconstruction]

end pcl
